import Mathlib

/-!
Verification of the paginated collector in `solar_systems_scrape.py`.

The single source function `fetch_all_solar_systems` issues an initial
GET request to learn `metadata.total` and `metadata.limit`, inserts the
first page's `(name, id)` pairs into a dict, then loops
`while offset < total_systems`, retrying a failing offset forever and
advancing `offset += limit` after each successful page.  At the end it
tries to write the dict to a JSON file (write failure is caught) and
returns the dict.

The embedding below models:
  * JSON values (`Prim` for the hashable primitives, `Json` in general);
  * Python exceptions relevant to this program (`PyErr`): the caught
    `requests.exceptions.RequestException` family and the uncaught
    `KeyError` / `TypeError` / `ZeroDivisionError`;
  * one HTTP round trip as an oracle value `HttpOutcome` (the response
    `requests.get` finally yields, after any internal redirects, or a
    transport-level error).  A run consumes the oracle stream one value
    per issued request, in order;
  * the Python dict as an insertion-ordered association list with
    last-write-wins update in place (`dinsert`);
  * the unbounded `while` loop by a fuel-indexed function `loop`;
    `none` means the given fuel was exhausted before the loop finished
    (in particular, a run that retries or paginates forever yields
    `none` for every fuel);
  * the output file by the payload handed to `json.dump` (`RunResult.file`)
    together with a character-exact model of the dump format (`dumps`)
    and of reading it back (`loads`).

Wall-clock sleeps (`time.sleep`) are not modelled; they do not affect
any data or control flow.
-/

namespace Scrape

/-- Hashable JSON primitives: the only values Python allows as dict keys
among those `json` can produce. -/
inductive Prim where
  | null : Prim
  | bool (b : Bool) : Prim
  | num (n : Int) : Prim
  | str (s : String) : Prim
deriving DecidableEq

/-- JSON values as produced by `response.json()`.  Arrays and objects are
unhashable in Python (they decode to `list` / `dict`). -/
inductive Json where
  | prim (p : Prim) : Json
  | arr (xs : List Json) : Json
  | obj (fields : List (String × Json)) : Json

/-- Shorthand for a JSON string. -/
def Json.s (x : String) : Json := .prim (.str x)

/-- Shorthand for a JSON integer. -/
def Json.n (x : Int) : Json := .prim (.num x)

/-- The Python exceptions this program can surface.
`requestException` stands for the whole `requests.exceptions.RequestException`
family (connection errors, `HTTPError` from `raise_for_status`, and the
`requests` JSON-decode error, which subclasses `RequestException` since
requests 2.27).  The other three are NOT caught by any `except` clause in
the source and therefore abort the function. -/
inductive PyErr where
  | requestException : PyErr
  | keyError (key : String) : PyErr
  | typeError : PyErr
  | zeroDivisionError : PyErr
deriving DecidableEq

/-- The outcome of one `requests.get` call: either the call raises a
transport-level `RequestException`, or it yields a response with an HTTP
status code and a body (`none` models a body that is not valid JSON). -/
inductive HttpOutcome where
  | netErr : HttpOutcome
  | resp (status : Nat) (body : Option Json) : HttpOutcome

/-- Lines 25-27 / 51-53 of the source: `requests.get` followed by
`response.raise_for_status()` (which raises exactly for statuses 400-599)
followed by `response.json()`.  Result: the parsed body, or the raised
`RequestException`. -/
def handleResp : HttpOutcome → Except PyErr Json
  | .netErr => .error .requestException
  | .resp status body =>
    if 400 ≤ status ∧ status < 600 then .error .requestException
    else
      match body with
      | none => .error .requestException
      | some j => .ok j

/-- Python `d[key]` on a decoded JSON value: objects give the value or
`KeyError`; subscripting a decoded list/str/int with a string is a
`TypeError`. -/
def lookupStr : List (String × Json) → String → Option Json
  | [], _ => none
  | (k, v) :: rest, key => if k = key then some v else lookupStr rest key

/-- Subscript access `j[key]` as the source uses it. -/
def getKey (j : Json) (key : String) : Except PyErr Json :=
  match j with
  | .obj fields =>
    match lookupStr fields key with
    | some v => .ok v
    | none => .error (.keyError key)
  | _ => .error .typeError

/-- A value used in the integer arithmetic of line 35: anything but a
JSON number is a `TypeError` there.  (Python would also accept `bool`;
no claim exercises boolean metadata, so it is folded into `TypeError`.) -/
def asInt (j : Json) : Except PyErr Int :=
  match j with
  | .prim (.num n) => .ok n
  | _ => .error .typeError

/-- Lines 30-35 of the source: read `data["metadata"]["total"]` and
`data["metadata"]["limit"]`, then evaluate the (printed) expression
`(total_systems + limit - 1) // limit`, whose only observable effects
are a `TypeError` on non-numeric metadata and a `ZeroDivisionError`
when `limit == 0`. -/
def headerInfo (data : Json) : Except PyErr (Int × Int) :=
  match getKey data "metadata" with
  | .error e => .error e
  | .ok md =>
    match getKey md "total" with
    | .error e => .error e
    | .ok t =>
      match getKey md "limit" with
      | .error e => .error e
      | .ok l =>
        match asInt t with
        | .error e => .error e
        | .ok total =>
          match asInt l with
          | .error e => .error e
          | .ok limit =>
            if limit = 0 then .error .zeroDivisionError else .ok (total, limit)

/-- The accumulating Python dict `solar_systems_mapping`: insertion-ordered
key/value pairs with unique keys. -/
abbrev Dict := List (Prim × Json)

/-- The keys of the accumulated dict, in insertion order. -/
def keys (m : Dict) : List Prim := m.map Prod.fst

/-- Replace the value of the (unique) entry with key `k`, keeping its
position. -/
def dreplace (k : Prim) (v : Json) : Dict → Dict
  | [] => []
  | (k', v') :: rest => if k' = k then (k, v) :: rest else (k', v') :: dreplace k v rest

/-- Python dict assignment `d[k] = v`: replace the value in place if the
key is present (keeping its position), else append the new pair. -/
def dinsert (m : Dict) (k : Prim) (v : Json) : Dict :=
  if k ∈ keys m then dreplace k v m else m ++ [(k, v)]

/-- Insert a list of pairs left to right (the `for system in ...` loops of
lines 38-39 and 56-57). -/
def insertAll (m : Dict) : List (Prim × Json) → Dict
  | [] => m
  | (k, v) :: rest => insertAll (dinsert m k v) rest

/-- Python `dict` lookup on the association-list model (first match; the
insertion discipline keeps keys unique, so first = only). -/
def dlookup : List (Prim × Json) → Prim → Option Json
  | [], _ => none
  | (k, v) :: rest, key => if k = key then some v else dlookup rest key

/-- Extract the `(name, id)` pairs of one page, in order, with the
Python evaluation order of `mapping[system["name"]] = system["id"]`:
the right-hand side `system["id"]` is evaluated first, then the key,
then the key's hashability is checked by the dict insert.  The source
interleaves extraction and insertion; since an insert with a hashable
key cannot fail, running all extractions first raises the same first
error and produces the same dict, which is how `loop` consumes it. -/
def extractPairs : List Json → Except PyErr (List (Prim × Json))
  | [] => .ok []
  | sys :: rest => do
    let v ← getKey sys "id"
    let kj ← getKey sys "name"
    match kj with
    | .prim k =>
      let tail ← extractPairs rest
      .ok ((k, v) :: tail)
    | _ => .error .typeError

/-- Lines 38-39 / 56-57: iterate over `data["data"]`.  Iterating a
non-list is modelled as the `TypeError` Python raises either at the
`for` or at the first string subscript. -/
def bodyPairs (body : Json) : Except PyErr (List (Prim × Json)) := do
  let d ← getKey body "data"
  match d with
  | .arr l => extractPairs l
  | _ => .error .typeError

/-- One issued HTTP request, as recorded in the run trace.  `lim` and
`off` are the query parameters; `succ` and `mapAfter` are ghost fields:
whether this attempt's page was fetched and fully inserted, and the
accumulated dict right after the attempt. -/
structure Attempt where
  lim : Int
  off : Int
  succ : Bool
  mapAfter : Dict

/-- The mutable state of the `while` loop (plus the ghost request trace).
`batch_number` is only printed and is not modelled. -/
structure St where
  mapping : Dict
  offset : Int
  trace : List Attempt

/-- How the `while` loop ends: normally (`offset >= total`), or by an
exception none of its `except` clauses catches. -/
inductive LoopRes where
  | done (st : St) : LoopRes
  | raised (st : St) (e : PyErr) : LoopRes

/-- The state carried by a loop result. -/
def LoopRes.st : LoopRes → St
  | .done st => st
  | .raised st _ => st

/-- The tail of an oracle stream: the stream after consuming one value. -/
def otail {α : Type} (f : Nat → α) : Nat → α := fun n => f (n + 1)

/-- Lines 47-72 of the source: `while offset < total_systems`.  Each
iteration issues one request (consuming `oracle 0` and continuing with
`otail oracle`).  A `RequestException` is caught and the same offset is
retried; a `KeyError`/`TypeError` while reading the body propagates and
aborts the function (`raised`); on success the page's pairs are inserted
and `offset += limit`.  `fuel` bounds the number of iterations modelled:
`none` means the loop was still running after `fuel` iterations. -/
def loop (limit total : Int) : (Nat → HttpOutcome) → Nat → St → Option LoopRes
  | _, 0, st => if st.offset < total then none else some (.done st)
  | oracle, fuel + 1, st =>
    if st.offset < total then
      match handleResp (oracle 0) with
      | .error _ =>
        loop limit total (otail oracle) fuel
          { st with trace := st.trace ++ [⟨limit, st.offset, false, st.mapping⟩] }
      | .ok body =>
        match bodyPairs body with
        | .error e =>
          some (.raised { st with trace := st.trace ++ [⟨limit, st.offset, false, st.mapping⟩] } e)
        | .ok ps =>
          loop limit total (otail oracle) fuel
            { mapping := insertAll st.mapping ps
              offset := st.offset + limit
              trace := st.trace ++ [⟨limit, st.offset, true, insertAll st.mapping ps⟩] }
    else some (.done st)

/-- What a whole run of `fetch_all_solar_systems` produces:
`result` is the function's normal return value or the uncaught exception
it raises; `trace` records every issued request in order; `file` is the
dict handed to `json.dump` if the output file was written, `none` if no
write happened (initial failure, uncaught exception, or a sink error). -/
structure RunResult where
  result : Except PyErr Dict
  trace : List Attempt
  file : Option Dict

/-- The whole of `fetch_all_solar_systems` (lines 6-88).  `oracle` is the
stream of HTTP outcomes the network produces for the successive requests;
`writeOk` tells whether the final `open`/`json.dump` succeeds (a failed
write raises `IOError`, which line 85 catches); `fuel` bounds the number
of `while` iterations as in `loop`.  The initial request is issued with
the hardcoded `params={"limit": 100, "offset": 0}`; a `RequestException`
on it returns the empty dict (line 76) and nothing is written. -/
def fetch_all_solar_systems (oracle : Nat → HttpOutcome) (writeOk : Bool) (fuel : Nat) :
    Option RunResult :=
  match handleResp (oracle 0) with
  | .error _ => some ⟨.ok [], [⟨100, 0, false, []⟩], none⟩
  | .ok data =>
    match headerInfo data with
    | .error e => some ⟨.error e, [⟨100, 0, false, []⟩], none⟩
    | .ok (total, limit) =>
      match bodyPairs data with
      | .error e => some ⟨.error e, [⟨100, 0, false, []⟩], none⟩
      | .ok ps0 =>
        let m0 := insertAll [] ps0
        match loop limit total (otail oracle) fuel ⟨m0, limit, [⟨100, 0, true, m0⟩]⟩ with
        | none => none
        | some (.raised st e) => some ⟨.error e, st.trace, none⟩
        | some (.done st) =>
          some ⟨.ok st.mapping, st.trace, if writeOk then some st.mapping else none⟩

/-! ## Spec-side helper definitions -/

/-- An oracle all of whose responses succeed and carry a well-formed
page whose `(name, id)` pairs are `pages n`. -/
def GoodOracle (oracle : Nat → HttpOutcome) (pages : Nat → List (Prim × Json)) : Prop :=
  ∀ n, ∃ body, handleResp (oracle n) = .ok body ∧ bodyPairs body = .ok (pages n)

theorem GoodOracle.tail {oracle : Nat → HttpOutcome} {pages : Nat → List (Prim × Json)}
    (h : GoodOracle oracle pages) : GoodOracle (otail oracle) (otail pages) :=
  fun n => h (n + 1)

/-- Number of loop iterations a failure-free run performs from cursor
`offset`: the ceiling of `(total - offset) / limit`, as a natural number
(meaningful for `1 ≤ limit`). -/
def nIters (total limit offset : Int) : Nat :=
  ((total - offset).toNat + limit.toNat - 1) / limit.toNat

/-- Concatenation of the first `n` pages, in fetch order. -/
def catPages : (Nat → List (Prim × Json)) → Nat → List (Prim × Json)
  | _, 0 => []
  | pages, n + 1 => pages 0 ++ catPages (otail pages) n

/-- The reference evolution of the loop state over `n` failure-free
iterations: what the `while` loop does when every request succeeds. -/
def refSt (limit : Int) : (Nat → List (Prim × Json)) → Nat → St → St
  | _, 0, st => st
  | pages, n + 1, st =>
    refSt limit (otail pages) n
      { mapping := insertAll st.mapping (pages 0)
        offset := st.offset + limit
        trace := st.trace ++ [⟨limit, st.offset, true, insertAll st.mapping (pages 0)⟩] }

/-- The trace the loop appends over `n` failure-free iterations starting
at cursor `off` with accumulated dict `m`. -/
def goodAttempts (limit : Int) : (Nat → List (Prim × Json)) → Nat → Int → Dict → List Attempt
  | _, 0, _, _ => []
  | pages, n + 1, off, m =>
    ⟨limit, off, true, insertAll m (pages 0)⟩ ::
      goodAttempts limit (otail pages) n (off + limit) (insertAll m (pages 0))

/-- The request offsets of `n` loop iterations starting at `off`. -/
def offsFrom (limit : Int) : Nat → Int → List Int
  | 0, _ => []
  | n + 1, off => off :: offsFrom limit n (off + limit)

/-! ## Dict lemmas: the Python dict as an ordered association list -/

theorem keys_dreplace (k : Prim) (v : Json) (m : Dict) (h : k ∈ keys m) :
    keys (dreplace k v m) = keys m := by
  induction m with
  | nil => simp [keys] at h
  | cons p rest ih =>
    obtain ⟨pk, pv⟩ := p
    rw [dreplace]
    by_cases hp : pk = k
    · rw [if_pos hp, hp]
      rfl
    · rw [if_neg hp]
      have hmem : k ∈ keys rest := by
        rcases List.mem_cons.mp h with hh | hh
        · exact absurd hh.symm hp
        · exact hh
      show pk :: keys (dreplace k v rest) = pk :: keys rest
      rw [ih hmem]

theorem keys_dinsert (m : Dict) (k : Prim) (v : Json) :
    keys (dinsert m k v) = if k ∈ keys m then keys m else keys m ++ [k] := by
  unfold dinsert
  by_cases hmem : k ∈ keys m
  · rw [if_pos hmem, if_pos hmem, keys_dreplace k v m hmem]
  · rw [if_neg hmem, if_neg hmem]
    simp [keys]

theorem dlookup_append (a b : List (Prim × Json)) (k : Prim) :
    dlookup (a ++ b) k =
      match dlookup a k with
      | some v => some v
      | none => dlookup b k := by
  induction a with
  | nil => simp [dlookup]
  | cons p rest ih =>
    obtain ⟨pk, pv⟩ := p
    rw [List.cons_append, dlookup, dlookup]
    by_cases hp : pk = k
    · simp [hp]
    · rw [if_neg hp, if_neg hp, ih]

theorem dlookup_eq_none_of_not_mem {m : Dict} {k : Prim} (h : k ∉ keys m) :
    dlookup m k = none := by
  induction m with
  | nil => rfl
  | cons p rest ih =>
    obtain ⟨pk, pv⟩ := p
    have hp : ¬ pk = k := fun hh => h (List.mem_map.mpr ⟨(pk, pv), List.mem_cons_self _ _, hh⟩)
    rw [dlookup, if_neg hp]
    exact ih (fun hh => h (by
      rcases List.mem_map.mp hh with ⟨q, hq, hqk⟩
      exact List.mem_map.mpr ⟨q, List.mem_cons_of_mem _ hq, hqk⟩))

theorem dlookup_dreplace_self {m : Dict} {k : Prim} (v : Json) (h : k ∈ keys m) :
    dlookup (dreplace k v m) k = some v := by
  induction m with
  | nil => simp [keys] at h
  | cons p rest ih =>
    obtain ⟨pk, pv⟩ := p
    rw [dreplace]
    by_cases hp : pk = k
    · rw [if_pos hp, dlookup, if_pos rfl]
    · rw [if_neg hp, dlookup, if_neg hp]
      apply ih
      rcases List.mem_cons.mp h with hh | hh
      · exact absurd hh.symm hp
      · exact hh

theorem dlookup_dreplace_other {m : Dict} {k k' : Prim} (v : Json) (hk : ¬ k = k') :
    dlookup (dreplace k v m) k' = dlookup m k' := by
  induction m with
  | nil => rfl
  | cons p rest ih =>
    obtain ⟨pk, pv⟩ := p
    rw [dreplace]
    by_cases hp : pk = k
    · rw [if_pos hp, dlookup, if_neg hk, dlookup, if_neg (fun h => hk (hp ▸ h))]
    · rw [if_neg hp, dlookup, dlookup]
      by_cases hp' : pk = k'
      · rw [if_pos hp', if_pos hp']
      · rw [if_neg hp', if_neg hp', ih]

theorem dlookup_dinsert (m : Dict) (k : Prim) (v : Json) (k' : Prim) :
    dlookup (dinsert m k v) k' = if k = k' then some v else dlookup m k' := by
  unfold dinsert
  by_cases hmem : k ∈ keys m
  · rw [if_pos hmem]
    by_cases hk : k = k'
    · subst hk
      rw [if_pos rfl]
      exact dlookup_dreplace_self v hmem
    · rw [if_neg hk, dlookup_dreplace_other v hk]
  · rw [if_neg hmem, dlookup_append]
    by_cases hk : k = k'
    · subst hk
      rw [if_pos rfl, dlookup_eq_none_of_not_mem hmem]
      simp [dlookup]
    · rw [if_neg hk]
      rcases h : dlookup m k' with _ | w
      · show dlookup [(k, v)] k' = none
        rw [dlookup, if_neg hk]
        rfl
      · rfl

theorem insertAll_append (m : Dict) (a b : List (Prim × Json)) :
    insertAll m (a ++ b) = insertAll (insertAll m a) b := by
  induction a generalizing m with
  | nil => rfl
  | cons p rest ih => cases p; simp only [List.cons_append, insertAll]; exact ih _

theorem dlookup_insertAll (m : Dict) (ps : List (Prim × Json)) (k : Prim) :
    dlookup (insertAll m ps) k =
      match dlookup ps.reverse k with
      | some v => some v
      | none => dlookup m k := by
  induction ps generalizing m with
  | nil => simp [insertAll, dlookup]
  | cons p rest ih =>
    cases p with
    | mk pk pv =>
      rw [insertAll, ih]
      have hrev : (⟨pk, pv⟩ :: rest : List (Prim × Json)).reverse = rest.reverse ++ [(pk, pv)] := by
        simp
      rw [hrev, dlookup_append, dlookup_dinsert]
      rcases h : dlookup rest.reverse k with _ | v
      · simp only [dlookup]
        by_cases hpk : pk = k <;> simp [hpk]
      · rfl

theorem keys_insertAll_nodup {m : Dict} (h : (keys m).Nodup) (ps : List (Prim × Json)) :
    (keys (insertAll m ps)).Nodup := by
  induction ps generalizing m with
  | nil => exact h
  | cons p rest ih =>
    cases p with
    | mk pk pv =>
      rw [insertAll]
      apply ih
      rw [keys_dinsert]
      split
      · exact h
      · rename_i hmem
        exact List.Nodup.append h (List.nodup_singleton _) (by
          intro a ha hb
          rw [List.mem_singleton] at hb
          exact hmem (hb ▸ ha))

theorem keys_insertAll_toFinset (m : Dict) (ps : List (Prim × Json)) :
    (keys (insertAll m ps)).toFinset = (keys m).toFinset ∪ (ps.map Prod.fst).toFinset := by
  induction ps generalizing m with
  | nil => simp [insertAll]
  | cons p rest ih =>
    cases p with
    | mk pk pv =>
      rw [insertAll, ih, keys_dinsert]
      split
      · rename_i hmem
        have : pk ∈ (keys m).toFinset := List.mem_toFinset.mpr hmem
        ext a
        simp only [Finset.mem_union, List.mem_toFinset, List.map_cons, List.mem_cons]
        constructor
        · rintro (h | h)
          · exact Or.inl h
          · exact Or.inr (Or.inr h)
        · rintro (h | h | h)
          · exact Or.inl h
          · exact Or.inl (List.mem_toFinset.mp (h ▸ this))
          · exact Or.inr h
      · ext a
        simp only [Finset.mem_union, List.mem_toFinset, List.mem_append, List.mem_singleton,
          List.map_cons, List.mem_cons]
        tauto

theorem length_insertAll_nil (ps : List (Prim × Json)) :
    (insertAll [] ps).length = (ps.map Prod.fst).toFinset.card := by
  have hnodup : (keys (insertAll [] ps)).Nodup := keys_insertAll_nodup (by simp [keys]) ps
  have hfin : (keys (insertAll [] ps)).toFinset = (ps.map Prod.fst).toFinset := by
    rw [keys_insertAll_toFinset]
    simp [keys]
  calc (insertAll [] ps).length = (keys (insertAll [] ps)).length := by
        simp [keys]
    _ = (keys (insertAll [] ps)).toFinset.card := (List.toFinset_card_of_nodup hnodup).symm
    _ = (ps.map Prod.fst).toFinset.card := by rw [hfin]

/-! ## Iteration-count arithmetic -/

theorem ceil_div_step (d L : Nat) (hL : 1 ≤ L) (hd : 1 ≤ d) :
    (d + L - 1) / L = (d - L + L - 1) / L + 1 := by
  have h1 : d + L - 1 = (d - 1) + L := by omega
  rw [h1, Nat.add_div_right _ hL]
  by_cases hdL : L ≤ d
  · have h2 : d - L + L - 1 = d - 1 := by omega
    rw [h2]
  · have h2 : d - L + L - 1 = L - 1 := by omega
    rw [h2, Nat.div_eq_of_lt (by omega), Nat.div_eq_of_lt (by omega)]

theorem nIters_zero {total limit offset : Int} (hL : 1 ≤ limit) (h : ¬ offset < total) :
    nIters total limit offset = 0 := by
  unfold nIters
  have h1 : (total - offset).toNat = 0 := by omega
  rw [h1]
  exact Nat.div_eq_of_lt (by omega)

theorem nIters_step {total limit offset : Int} (hL : 1 ≤ limit) (h : offset < total) :
    nIters total limit offset = nIters total limit (offset + limit) + 1 := by
  unfold nIters
  have h1 : (total - (offset + limit)).toNat = (total - offset).toNat - limit.toNat := by omega
  rw [h1]
  exact ceil_div_step _ _ (by omega) (by omega)

theorem nIters_pos {total limit offset : Int} (hL : 1 ≤ limit) (h : offset < total) :
    1 ≤ nIters total limit offset := by
  rw [nIters_step hL h]
  omega

/-! ## Characterization of failure-free loop runs -/

theorem loop_good (limit total : Int) (hL : 1 ≤ limit) :
    ∀ (fuel : Nat) (oracle : Nat → HttpOutcome) (pages : Nat → List (Prim × Json)) (st : St),
      GoodOracle oracle pages → nIters total limit st.offset ≤ fuel →
      loop limit total oracle fuel st =
        some (.done (refSt limit pages (nIters total limit st.offset) st)) := by
  intro fuel
  induction fuel with
  | zero =>
    intro oracle pages st hg hle
    have h0 : nIters total limit st.offset = 0 := Nat.le_zero.mp hle
    have hlt : ¬ st.offset < total := by
      intro hlt
      have := nIters_pos hL hlt
      omega
    rw [h0]
    show (if st.offset < total then none else some (LoopRes.done st)) =
      some (LoopRes.done (refSt limit pages 0 st))
    rw [if_neg hlt]
    rfl
  | succ fuel ih =>
    intro oracle pages st hg hle
    by_cases hlt : st.offset < total
    · obtain ⟨body, hresp, hbp⟩ := hg 0
      rw [loop, if_pos hlt]
      simp only [hresp, hbp]
      rw [nIters_step hL hlt, refSt]
      have hle' : nIters total limit (st.offset + limit) ≤ fuel := by
        have := nIters_step hL hlt
        omega
      exact ih (otail oracle) (otail pages) _ hg.tail hle'
    · have h0 : nIters total limit st.offset = 0 := nIters_zero hL hlt
      rw [h0, loop, if_neg hlt]
      rfl

theorem refSt_spec (limit : Int) :
    ∀ (n : Nat) (pages : Nat → List (Prim × Json)) (st : St),
      refSt limit pages n st =
        { mapping := insertAll st.mapping (catPages pages n)
          offset := st.offset + limit * n
          trace := st.trace ++ goodAttempts limit pages n st.offset st.mapping } := by
  intro n
  induction n with
  | zero =>
    intro pages st
    simp [refSt, catPages, goodAttempts, insertAll]
  | succ n ih =>
    intro pages st
    rw [refSt, ih]
    simp only [St.mk.injEq]
    refine ⟨?_, ?_, ?_⟩
    · rw [catPages, insertAll_append]
    · push_cast
      ring
    · rw [goodAttempts]
      simp

theorem goodAttempts_map_off (limit : Int) :
    ∀ (n : Nat) (pages : Nat → List (Prim × Json)) (off : Int) (m : Dict),
      (goodAttempts limit pages n off m).map Attempt.off = offsFrom limit n off := by
  intro n
  induction n with
  | zero => intro pages off m; rfl
  | succ n ih =>
    intro pages off m
    rw [goodAttempts, offsFrom, List.map_cons, ih]

theorem goodAttempts_length (limit : Int) :
    ∀ (n : Nat) (pages : Nat → List (Prim × Json)) (off : Int) (m : Dict),
      (goodAttempts limit pages n off m).length = n := by
  intro n
  induction n with
  | zero => intro pages off m; rfl
  | succ n ih =>
    intro pages off m
    rw [goodAttempts, List.length_cons, ih]

/-! ## Concrete scenario builders -/

/-- A well-formed item object `{"name": ..., "id": ...}`. -/
def mkSys (name : String) (id : Int) : Json :=
  .obj [("name", Json.s name), ("id", Json.n id)]

/-- A well-formed page body with the given metadata and items. -/
def mkPage (total limit : Int) (items : List Json) : Json :=
  .obj [("metadata", .obj [("total", Json.n total), ("limit", Json.n limit)]),
        ("data", .arr items)]

/-! ## C1: initial-request failure handling -/

/-- C1 (amended): for every initial-request failure that raises
`requests.exceptions.RequestException` — a network error, an HTTP status
in 400-599, or a malformed JSON body — `fetch_all_solar_systems` returns
the empty mapping after that single request and writes no output file.
(A response missing the `metadata` keys instead aborts with an uncaught
`KeyError`, and statuses below 400 are not failures at all; see the
counterexample.) -/
theorem claim_c1 (oracle : Nat → HttpOutcome) (writeOk : Bool) (fuel : Nat)
    (h : oracle 0 = .netErr ∨
      (∃ s b, oracle 0 = .resp s b ∧ 400 ≤ s ∧ s < 600) ∨
      (∃ s, oracle 0 = .resp s none)) :
    fetch_all_solar_systems oracle writeOk fuel =
      some ⟨.ok [], [⟨100, 0, false, []⟩], none⟩ := by
  have herr : ∃ e, handleResp (oracle 0) = .error e := by
    rcases h with h | ⟨s, b, h, h4, h6⟩ | ⟨s, h⟩
    · rw [h]; exact ⟨_, rfl⟩
    · rw [h]
      simp only [handleResp]
      rw [if_pos ⟨h4, h6⟩]
      exact ⟨_, rfl⟩
    · rw [h]
      simp only [handleResp]
      refine ⟨.requestException, ?_⟩
      split <;> rfl
  obtain ⟨e, he⟩ := herr
  simp [fetch_all_solar_systems, he]

/-- Oracle whose every request raises a transport error. -/
def orNet : Nat → HttpOutcome := fun _ => .netErr

theorem claim_c1_witness :
    fetch_all_solar_systems orNet true 7 =
      some ⟨.ok [], [⟨100, 0, false, []⟩], none⟩ :=
  claim_c1 orNet true 7 (Or.inl rfl)

/-- Oracle whose first response is 200 with a JSON body lacking the
`metadata` key. -/
def orNoMeta : Nat → HttpOutcome := fun _ => .resp 200 (some (.obj [("data", .arr [])]))

/-- Oracle whose every response has the non-2xx status 301 but a
well-formed body. -/
def or301 : Nat → HttpOutcome :=
  fun _ => .resp 301 (some (mkPage 1 100 [mkSys "A" 30000001]))

theorem claim_c1_counterexample :
    (fetch_all_solar_systems orNoMeta true 0 =
      some ⟨.error (.keyError "metadata"), [⟨100, 0, false, []⟩], none⟩) ∧
    (fetch_all_solar_systems or301 true 0 =
      some ⟨.ok [(.str "A", Json.n 30000001)],
        [⟨100, 0, true, [(.str "A", Json.n 30000001)]⟩],
        some [(.str "A", Json.n 30000001)]⟩) :=
  ⟨rfl, rfl⟩

/-! ## C2: number and offsets of issued requests -/

theorem one_add_nIters {total limit : Int} (hL : 1 ≤ limit) :
    1 + nIters total limit limit =
      if 1 ≤ total then (total.toNat + limit.toNat - 1) / limit.toNat else 1 := by
  by_cases ht : 1 ≤ total
  · rw [if_pos ht]
    unfold nIters
    have h1 : (total - limit).toNat = total.toNat - limit.toNat := by omega
    rw [h1]
    rw [ceil_div_step total.toNat limit.toNat (by omega) (by omega), Nat.add_comm]
  · rw [if_neg ht]
    have h1 : nIters total limit limit = 0 := by
      unfold nIters
      have h2 : (total - limit).toNat = 0 := by omega
      rw [h2]
      exact Nat.div_eq_of_lt (by omega)
    omega

/-- C2 (amended): in a failure-free run whose first response reports
integer metadata `total` and `limit` with `limit ≥ 1`, the program
issues exactly `ceil(total / limit)` requests when `total ≥ 1`, and
exactly one request (the initial one) when `total ≤ 0`; the requests
are issued at offsets `0, limit, 2·limit, ...`.  In particular
`total = 250`, `limit = 100` gives 3 requests at offsets 0, 100, 200. -/
theorem claim_c2 (oracle : Nat → HttpOutcome) (pages : Nat → List (Prim × Json))
    (writeOk : Bool) (fuel : Nat) (body₀ : Json) (total limit : Int)
    (hg : GoodOracle oracle pages)
    (hresp : handleResp (oracle 0) = .ok body₀)
    (hhdr : headerInfo body₀ = .ok (total, limit))
    (hL : 1 ≤ limit)
    (hfuel : nIters total limit limit ≤ fuel) :
    ∃ r, fetch_all_solar_systems oracle writeOk fuel = some r ∧
      r.trace.length =
        (if 1 ≤ total then (total.toNat + limit.toNat - 1) / limit.toNat else 1) ∧
      r.trace.map Attempt.off = 0 :: offsFrom limit (nIters total limit limit) limit := by
  have hbp : bodyPairs body₀ = .ok (pages 0) := by
    obtain ⟨b, hb, hbp⟩ := hg 0
    rw [hresp] at hb
    cases hb
    exact hbp
  simp only [fetch_all_solar_systems, hresp, hhdr, hbp]
  rw [loop_good limit total hL fuel (otail oracle) (otail pages) _ hg.tail hfuel]
  refine ⟨_, rfl, ?_, ?_⟩
  · show (refSt limit (otail pages) (nIters total limit limit) _).trace.length = _
    rw [refSt_spec]
    simp only [List.length_append, goodAttempts_length, List.length_cons, List.length_nil]
    rw [← one_add_nIters hL]
  · show (refSt limit (otail pages) (nIters total limit limit) _).trace.map Attempt.off = _
    rw [refSt_spec]
    simp only [List.map_append, goodAttempts_map_off, List.map_cons, List.map_nil]
    rfl

/-- Oracle for the documented scenario: every response reports
`total = 250`, `limit = 100` (with empty pages, so the dict stays small). -/
def or250 : Nat → HttpOutcome := fun _ => .resp 200 (some (mkPage 250 100 []))

theorem claim_c2_witness :
    ∃ r, fetch_all_solar_systems or250 true 2 = some r ∧
      r.trace.length = 3 ∧ r.trace.map Attempt.off = [0, 100, 200] := by
  obtain ⟨r, hr, hlen, hoff⟩ :=
    claim_c2 or250 (fun _ => []) true 2 (mkPage 250 100 []) 250 100
      (fun _ => ⟨mkPage 250 100 [], rfl, rfl⟩) rfl rfl (by decide) (by decide)
  exact ⟨r, hr, hlen.trans (by decide), hoff.trans (by decide)⟩

/-- Oracle whose first response reports `total = 0`. -/
def orT0 : Nat → HttpOutcome := fun _ => .resp 200 (some (mkPage 0 100 []))

theorem claim_c2_counterexample :
    (fetch_all_solar_systems orT0 true 0 =
      some ⟨.ok [], [⟨100, 0, true, []⟩], some []⟩) ∧
    ((0 : Int).toNat + (100 : Int).toNat - 1) / (100 : Int).toNat = 0 ∧ (1 : Nat) ≠ 0 :=
  ⟨rfl, rfl, by decide⟩

/-! ## C3: mapping size and last-write-wins -/

theorem dlookup_insertAll_nil (ps : List (Prim × Json)) (k : Prim) :
    dlookup (insertAll [] ps) k = dlookup ps.reverse k := by
  rw [dlookup_insertAll]
  rcases h : dlookup ps.reverse k with _ | v
  · rfl
  · rfl

theorem catPages_one_add (pages : Nat → List (Prim × Json)) (n : Nat) :
    catPages pages (1 + n) = pages 0 ++ catPages (otail pages) n := by
  rw [Nat.add_comm]
  rfl

/-- C3: in a failure-free run, the returned mapping's size equals the
number of distinct names across all fetched pages (the initial page and
the `nIters` loop pages), and looking up any name yields the value of its
last occurrence in fetch order (last-write-wins). -/
theorem claim_c3 (oracle : Nat → HttpOutcome) (pages : Nat → List (Prim × Json))
    (writeOk : Bool) (fuel : Nat) (body₀ : Json) (total limit : Int)
    (hg : GoodOracle oracle pages)
    (hresp : handleResp (oracle 0) = .ok body₀)
    (hhdr : headerInfo body₀ = .ok (total, limit))
    (hL : 1 ≤ limit)
    (hfuel : nIters total limit limit ≤ fuel) :
    ∃ r M, fetch_all_solar_systems oracle writeOk fuel = some r ∧ r.result = .ok M ∧
      M.length = ((catPages pages (1 + nIters total limit limit)).map Prod.fst).toFinset.card ∧
      ∀ k, dlookup M k = dlookup (catPages pages (1 + nIters total limit limit)).reverse k := by
  have hbp : bodyPairs body₀ = .ok (pages 0) := by
    obtain ⟨b, hb, hbp⟩ := hg 0
    rw [hresp] at hb
    cases hb
    exact hbp
  simp only [fetch_all_solar_systems, hresp, hhdr, hbp]
  rw [loop_good limit total hL fuel (otail oracle) (otail pages) _ hg.tail hfuel]
  have hM : (refSt limit (otail pages) (nIters total limit limit)
        ⟨insertAll [] (pages 0), limit, [⟨100, 0, true, insertAll [] (pages 0)⟩]⟩).mapping =
      insertAll [] (catPages pages (1 + nIters total limit limit)) := by
    rw [refSt_spec, catPages_one_add, insertAll_append]
  refine ⟨_, _, rfl, rfl, ?_, ?_⟩
  · rw [hM]
    exact length_insertAll_nil _
  · intro k
    rw [hM]
    exact dlookup_insertAll_nil _ k

/-- Oracle whose pages carry duplicate names: every page maps `X` and `Y`,
with values that differ from page to page. -/
def orDup : Nat → HttpOutcome :=
  fun n => .resp 200 (some (mkPage 2 1 [mkSys "X" n, mkSys "Y" (10 + n)]))

/-- The `(name, id)` pairs of `orDup`'s pages. -/
def dupPages : Nat → List (Prim × Json) :=
  fun n => [(.str "X", Json.n n), (.str "Y", Json.n (10 + n))]

theorem claim_c3_witness :
    ∃ r M, fetch_all_solar_systems orDup true 1 = some r ∧ r.result = .ok M ∧
      M.length = ((catPages dupPages (1 + nIters 2 1 1)).map Prod.fst).toFinset.card ∧
      ∀ k, dlookup M k = dlookup (catPages dupPages (1 + nIters 2 1 1)).reverse k :=
  claim_c3 orDup dupPages true 1 (mkPage 2 1 [mkSys "X" 0, mkSys "Y" 10]) 2 1
    (fun _ => ⟨_, rfl, rfl⟩) rfl rfl (by decide) (by decide)

/-! ## C4: the loop never advances past a failing offset -/

/-- The invariant tying a run's request trace to the oracle: the first
attempt is issued at the current cursor; an attempt that advanced
(`succ = true`) did so because its request succeeded and its page's pairs
were inserted, and the next attempt is issued at `off + limit`; an
attempt that did not advance (`succ = false`) had a failing request or a
malformed body, left the mapping unchanged, and the next attempt is
issued at the same offset. -/
def chain (limit : Int) : (Nat → HttpOutcome) → Int → Dict → List Attempt → Prop
  | _, _, _, [] => True
  | oracle, off, m, a :: rest =>
    a.lim = limit ∧ a.off = off ∧
    ((a.succ = true ∧ ∃ body ps, handleResp (oracle 0) = .ok body ∧
        bodyPairs body = .ok ps ∧ a.mapAfter = insertAll m ps ∧
        chain limit (otail oracle) (off + limit) a.mapAfter rest) ∨
     (a.succ = false ∧
        ((∃ e, handleResp (oracle 0) = .error e) ∨
         (∃ body e, handleResp (oracle 0) = .ok body ∧ bodyPairs body = .error e)) ∧
        a.mapAfter = m ∧ chain limit (otail oracle) off m rest))

/-- C4: whatever the oracle does, the requests a loop run issues satisfy
`chain`: the offset is incremented (by exactly `limit`) only after the
request at that offset has succeeded and its items have been inserted;
after a failed attempt the next request is issued at the same offset with
the mapping unchanged, so no page offset is ever skipped. -/
theorem claim_c4 (limit total : Int) :
    ∀ (fuel : Nat) (oracle : Nat → HttpOutcome) (st : St) (res : LoopRes),
      loop limit total oracle fuel st = some res →
      ∃ ext, res.st.trace = st.trace ++ ext ∧ chain limit oracle st.offset st.mapping ext := by
  intro fuel
  induction fuel with
  | zero =>
    intro oracle st res h
    rw [loop] at h
    split at h
    · simp at h
    · cases h
      exact ⟨[], by simp [LoopRes.st], trivial⟩
  | succ fuel ih =>
    intro oracle st res h
    rw [loop] at h
    split at h
    case isTrue hlt =>
      rcases hr : handleResp (oracle 0) with e | body
      · simp only [hr] at h
        obtain ⟨ext, htr, hch⟩ := ih (otail oracle) _ res h
        refine ⟨⟨limit, st.offset, false, st.mapping⟩ :: ext, ?_, ?_⟩
        · rw [htr]; simp
        · exact ⟨rfl, rfl, Or.inr ⟨rfl, Or.inl ⟨e, hr⟩, rfl, hch⟩⟩
      · rcases hb : bodyPairs body with e | ps
        · simp only [hr, hb] at h
          cases h
          refine ⟨[⟨limit, st.offset, false, st.mapping⟩], by simp [LoopRes.st], ?_⟩
          exact ⟨rfl, rfl, Or.inr ⟨rfl, Or.inr ⟨body, e, hr, hb⟩, rfl, trivial⟩⟩
        · simp only [hr, hb] at h
          obtain ⟨ext, htr, hch⟩ := ih (otail oracle) _ res h
          refine ⟨⟨limit, st.offset, true, insertAll st.mapping ps⟩ :: ext, ?_, ?_⟩
          · rw [htr]; simp
          · exact ⟨rfl, rfl, Or.inl ⟨rfl, body, ps, hr, hb, rfl, hch⟩⟩
    case isFalse hlt =>
      cases h
      exact ⟨[], by simp [LoopRes.st], trivial⟩

/-- Oracle whose first request fails and whose later requests return a
well-formed page (`total = 2`, `limit = 1`, one item named `Z`). -/
def orC4 : Nat → HttpOutcome :=
  fun n => if n = 0 then .netErr else .resp 200 (some (mkPage 2 1 [mkSys "Z" n]))

theorem claim_c4_witness :
    ∃ ext,
      (LoopRes.done ⟨[(.str "Z", Json.n 2)], 2,
        [⟨1, 0, false, []⟩, ⟨1, 0, true, [(.str "Z", Json.n 1)]⟩,
         ⟨1, 1, true, [(.str "Z", Json.n 2)]⟩]⟩).st.trace =
        ([] : List Attempt) ++ ext ∧
      chain 1 orC4 0 [] ext :=
  claim_c4 1 2 3 orC4 ⟨[], 0, []⟩ _ rfl

/-! ## C5: one failure followed by a successful retry is idempotent -/

/-- Insert one failing response at position `f` of the oracle stream:
the request that would have been the `f`-th now fails, and every later
request gets the response the original stream scheduled one step
earlier — i.e. the retry of the failed request receives exactly the
response the failure-free run received there. -/
def insertFailAt (f : Nat) (oracle : Nat → HttpOutcome) : Nat → HttpOutcome :=
  fun n => if n < f then oracle n else if n = f then .netErr else oracle (n - 1)

theorem otail_insertFailAt_succ (f : Nat) (oracle : Nat → HttpOutcome) :
    otail (insertFailAt (f + 1) oracle) = insertFailAt f (otail oracle) := by
  funext n
  unfold otail insertFailAt
  by_cases h1 : n < f
  · rw [if_pos (by omega), if_pos h1]
  · by_cases h2 : n = f
    · rw [if_neg (by omega), if_pos (by omega), if_neg h1, if_pos h2]
    · rw [if_neg (by omega), if_neg (by omega), if_neg h1, if_neg h2]
      congr 1
      omega

theorem otail_insertFailAt_zero (oracle : Nat → HttpOutcome) :
    otail (insertFailAt 0 oracle) = oracle := by
  funext n
  unfold otail insertFailAt
  rw [if_neg (by omega), if_neg (by omega)]
  congr 1

/-- Forget the ghost trace of a loop result, keeping what the caller of
the loop can observe: divergence, the raised exception, or the final
mapping and offset. -/
def stripTrace : Option LoopRes → Option (Except PyErr (Dict × Int))
  | none => none
  | some (.done st) => some (.ok (st.mapping, st.offset))
  | some (.raised _ e) => some (.error e)

/-- The loop's observable outcome does not depend on the ghost trace. -/
theorem loop_stripTrace (limit total : Int) :
    ∀ (fuel : Nat) (oracle : Nat → HttpOutcome) (st st' : St),
      st.mapping = st'.mapping → st.offset = st'.offset →
      stripTrace (loop limit total oracle fuel st) =
        stripTrace (loop limit total oracle fuel st') := by
  intro fuel
  induction fuel with
  | zero =>
    intro oracle st st' hm ho
    rw [loop, loop, ho]
    by_cases h : st'.offset < total
    · rw [if_pos h, if_pos h]
    · rw [if_neg h, if_neg h]
      simp [stripTrace, hm, ho]
  | succ fuel ih =>
    intro oracle st st' hm ho
    rw [loop, loop, ho]
    by_cases h : st'.offset < total
    · rw [if_pos h, if_pos h]
      rcases hr : handleResp (oracle 0) with e | body
      · simp only [hr]
        exact ih (otail oracle) _ _ hm (by simp [ho])
      · rcases hb : bodyPairs body with e | ps
        · simp only [hr, hb, stripTrace]
        · simp only [hr, hb]
          exact ih (otail oracle) _ _ (by simp [hm]) (by simp [ho])
    · rw [if_neg h, if_neg h]
      simp [stripTrace, hm, ho]

theorem stripTrace_done_inv {x : Option LoopRes} {m : Dict} {off : Int}
    (h : stripTrace x = some (.ok (m, off))) :
    ∃ st₂, x = some (.done st₂) ∧ st₂.mapping = m ∧ st₂.offset = off := by
  match x with
  | none => simp [stripTrace] at h
  | some (.done st) =>
    simp only [stripTrace, Option.some.injEq, Except.ok.injEq, Prod.mk.injEq] at h
    exact ⟨st, rfl, h.1, h.2⟩
  | some (.raised st e) => simp [stripTrace] at h

/-- Inserting one failure anywhere into the stream consumed by a loop run
that completes does not change the final mapping or offset (it only costs
one extra iteration). -/
theorem loop_insertFail (limit total : Int) :
    ∀ (fuel : Nat) (oracle : Nat → HttpOutcome) (f : Nat) (st st₁ : St),
      loop limit total oracle fuel st = some (.done st₁) →
      ∃ st₂, loop limit total (insertFailAt f oracle) (fuel + 1) st = some (.done st₂) ∧
        st₂.mapping = st₁.mapping ∧ st₂.offset = st₁.offset := by
  intro fuel
  induction fuel with
  | zero =>
    intro oracle f st st₁ h
    rw [loop] at h
    split at h
    · simp at h
    case isFalse hlt =>
      cases h
      refine ⟨st, ?_, rfl, rfl⟩
      rw [loop, if_neg hlt]
  | succ fuel ih =>
    intro oracle f st st₁ h
    rw [loop] at h
    split at h
    case isFalse hlt =>
      cases h
      refine ⟨st, ?_, rfl, rfl⟩
      rw [loop, if_neg hlt]
    case isTrue hlt =>
      cases f with
      | zero =>
        have hfail : insertFailAt 0 oracle 0 = .netErr := by
          unfold insertFailAt
          rw [if_neg (by omega), if_pos rfl]
        rw [loop, if_pos hlt]
        simp only [hfail, handleResp, otail_insertFailAt_zero]
        have h' : loop limit total oracle (fuel + 1) st = some (.done st₁) := by
          rw [loop, if_pos hlt]
          exact h
        have hstrip := loop_stripTrace limit total (fuel + 1) oracle st
          { st with trace := st.trace ++ [⟨limit, st.offset, false, st.mapping⟩] } rfl rfl
        rw [h'] at hstrip
        simp only [stripTrace] at hstrip
        obtain ⟨st₂, hl₂, hm, ho⟩ := stripTrace_done_inv hstrip.symm
        exact ⟨st₂, hl₂, hm, ho⟩
      | succ f =>
        have h0 : insertFailAt (f + 1) oracle 0 = oracle 0 := by
          unfold insertFailAt
          rw [if_pos (by omega)]
        rw [loop, if_pos hlt, h0]
        rcases hr : handleResp (oracle 0) with e | body
        · simp only [hr] at h ⊢
          rw [otail_insertFailAt_succ]
          exact ih (otail oracle) f _ st₁ h
        · rcases hb : bodyPairs body with e | ps
          · simp only [hr, hb] at h
            simp at h
          · simp only [hr, hb] at h ⊢
            rw [otail_insertFailAt_succ]
            exact ih (otail oracle) f _ st₁ h

/-- C5: if a run of `fetch_all_solar_systems` returns a mapping `M`, then
the run in which some subsequent page request (the `f+1`-st issued
request, for any `f`) fails exactly once and is then retried with the
originally scheduled response also returns exactly `M`: a failed attempt
changes neither the accumulated mapping nor the offset. -/
theorem claim_c5 (oracle : Nat → HttpOutcome) (writeOk : Bool) (fuel : Nat) (f : Nat)
    (r : RunResult) (M : Dict)
    (hrun : fetch_all_solar_systems oracle writeOk fuel = some r)
    (hok : r.result = .ok M) :
    ∃ r₂, fetch_all_solar_systems (insertFailAt (f + 1) oracle) writeOk (fuel + 1) = some r₂ ∧
      r₂.result = .ok M := by
  have h0 : insertFailAt (f + 1) oracle 0 = oracle 0 := by
    unfold insertFailAt
    rw [if_pos (by omega)]
  unfold fetch_all_solar_systems at hrun ⊢
  rw [h0]
  rcases hr : handleResp (oracle 0) with e | data
  · simp only [hr] at hrun ⊢
    cases hrun
    exact ⟨_, rfl, hok⟩
  · simp only [hr] at hrun ⊢
    rcases hh : headerInfo data with e | tl
    · simp only [hh] at hrun ⊢
      cases hrun
      exact absurd hok (by simp)
    · obtain ⟨total, limit⟩ := tl
      simp only [hh] at hrun ⊢
      rcases hb : bodyPairs data with e | ps0
      · simp only [hb] at hrun ⊢
        cases hrun
        exact absurd hok (by simp)
      · simp only [hb] at hrun ⊢
        rcases hl : loop limit total (otail oracle) fuel
            ⟨insertAll [] ps0, limit, [⟨100, 0, true, insertAll [] ps0⟩]⟩ with _ | lres
        · rw [hl] at hrun
          simp at hrun
        · rw [hl] at hrun
          cases lres with
          | raised st e =>
            simp only at hrun
            cases hrun
            exact absurd hok (by simp)
          | done st =>
            simp only at hrun
            cases hrun
            obtain ⟨st₂, hl₂, hm, ho⟩ := loop_insertFail limit total fuel (otail oracle) f _ st hl
            rw [otail_insertFailAt_succ, hl₂]
            refine ⟨_, rfl, ?_⟩
            rw [show (RunResult.mk (.ok st₂.mapping) st₂.trace
              (if writeOk then some st₂.mapping else none)).result = .ok st₂.mapping from rfl, hm]
            exact hok

/-- Oracle for the C5 witness: `total = 2`, `limit = 1`, every page maps
name `W` to the request index. -/
def orC5 : Nat → HttpOutcome := fun n => .resp 200 (some (mkPage 2 1 [mkSys "W" n]))

theorem claim_c5_witness :
    ∃ r₂, fetch_all_solar_systems (insertFailAt 1 orC5) true 2 = some r₂ ∧
      r₂.result = .ok [(.str "W", Json.n 1)] :=
  claim_c5 orC5 true 1 0
    ⟨.ok [(.str "W", Json.n 1)],
      [⟨100, 0, true, [(.str "W", Json.n 0)]⟩, ⟨1, 1, true, [(.str "W", Json.n 1)]⟩],
      some [(.str "W", Json.n 1)]⟩
    [(.str "W", Json.n 1)] rfl rfl

/-! ## C6: is an empty mapping a reliable failure signal? -/

/-- Oracle that reports an empty collection: `total = 0`. -/
def orT0c6 : Nat → HttpOutcome := fun _ => .resp 200 (some (mkPage 0 100 []))

/-- C6 (amended): an initial-request `RequestException` makes
`fetch_all_solar_systems` return an empty mapping (the soft-failure
contract), but the converse claimed by the spec fails: an empty mapping
does not imply that the initial request failed, because a successful run
over an empty collection also returns an empty mapping. -/
theorem claim_c6 :
    (∀ (oracle : Nat → HttpOutcome) (writeOk : Bool) (fuel : Nat) (e : PyErr),
      handleResp (oracle 0) = .error e →
      ∃ r, fetch_all_solar_systems oracle writeOk fuel = some r ∧ r.result = .ok []) ∧
    ¬ (∀ (oracle : Nat → HttpOutcome) (writeOk : Bool) (fuel : Nat) (r : RunResult),
        fetch_all_solar_systems oracle writeOk fuel = some r → r.result = .ok [] →
        ∃ e, handleResp (oracle 0) = .error e) := by
  constructor
  · intro oracle writeOk fuel e he
    refine ⟨⟨.ok [], [⟨100, 0, false, []⟩], none⟩, ?_, rfl⟩
    unfold fetch_all_solar_systems
    simp only [he]
  · intro hcl
    obtain ⟨e, he⟩ := hcl orT0c6 true 0 ⟨.ok [], [⟨100, 0, true, []⟩], some []⟩ rfl rfl
    rw [show handleResp (orT0c6 0) = .ok (mkPage 0 100 []) from rfl] at he
    exact Except.noConfusion he

/-- Oracle that always fails at the transport level. -/
def orNetC6 : Nat → HttpOutcome := fun _ => .netErr

theorem claim_c6_witness :
    ∃ r, fetch_all_solar_systems orNetC6 true 4 = some r ∧ r.result = .ok [] :=
  claim_c6.1 orNetC6 true 4 .requestException rfl

theorem claim_c6_counterexample :
    (fetch_all_solar_systems orT0c6 true 0 =
      some ⟨.ok [], [⟨100, 0, true, []⟩], some []⟩) ∧
    handleResp (orT0c6 0) = .ok (mkPage 0 100 []) :=
  ⟨rfl, rfl⟩

/-! ## C7: `total` and `limit` come from the first response only -/

/-- Everything the `while` loop reads from one HTTP outcome: whether the
request raised, and if not, the `(name, id)` pairs extracted from the
body's `data` field.  The body's `metadata` (or any other field) is not
part of the view. -/
def view (o : HttpOutcome) : Except Unit (Except PyErr (List (Prim × Json))) :=
  match handleResp o with
  | .error _ => .error ()
  | .ok b => .ok (bodyPairs b)

/-- The loop's behaviour depends on the oracle only through `view`: two
oracles whose responses agree on success and on the `data` items — but
may disagree on everything else, in particular on the metadata of later
pages — drive the loop identically. -/
theorem loop_view_congr (limit total : Int) :
    ∀ (fuel : Nat) (or₁ or₂ : Nat → HttpOutcome) (st : St),
      (∀ n, view (or₁ n) = view (or₂ n)) →
      loop limit total or₁ fuel st = loop limit total or₂ fuel st := by
  intro fuel
  induction fuel with
  | zero =>
    intro or₁ or₂ st hv
    rw [loop, loop]
  | succ fuel ih =>
    intro or₁ or₂ st hv
    rw [loop, loop]
    by_cases h : st.offset < total
    · rw [if_pos h, if_pos h]
      have hv0 := hv 0
      unfold view at hv0
      rcases h1 : handleResp (or₁ 0) with e1 | b1
      · rw [h1] at hv0
        rcases h2 : handleResp (or₂ 0) with e2 | b2
        · simp only [h1, h2]
          exact ih (otail or₁) (otail or₂) _ (fun n => hv (n + 1))
        · rw [h2] at hv0
          simp at hv0
      · rw [h1] at hv0
        rcases h2 : handleResp (or₂ 0) with e2 | b2
        · rw [h2] at hv0
          simp at hv0
        · rw [h2] at hv0
          simp only [Except.ok.injEq] at hv0
          simp only [h1, h2, ← hv0]
          rcases h3 : bodyPairs b1 with e3 | ps
          · rfl
          · exact ih (otail or₁) (otail or₂) _ (fun n => hv (n + 1))
    · rw [if_neg h, if_neg h]

/-- Every request the loop issues uses the `limit` parameter it was
started with and an offset strictly below the `total` it was started
with. -/
theorem loop_trace_ext (limit total : Int) :
    ∀ (fuel : Nat) (oracle : Nat → HttpOutcome) (st : St) (res : LoopRes),
      loop limit total oracle fuel st = some res →
      ∃ ext, res.st.trace = st.trace ++ ext ∧
        ∀ a ∈ ext, a.lim = limit ∧ a.off < total := by
  intro fuel
  induction fuel with
  | zero =>
    intro oracle st res h
    rw [loop] at h
    split at h
    · simp at h
    · cases h
      exact ⟨[], by simp [LoopRes.st], by simp⟩
  | succ fuel ih =>
    intro oracle st res h
    rw [loop] at h
    split at h
    case isTrue hlt =>
      rcases hr : handleResp (oracle 0) with e | body
      · simp only [hr] at h
        obtain ⟨ext, htr, hp⟩ := ih (otail oracle) _ res h
        refine ⟨⟨limit, st.offset, false, st.mapping⟩ :: ext, by rw [htr]; simp, ?_⟩
        intro a ha
        rcases List.mem_cons.mp ha with ha | ha
        · exact ha ▸ ⟨rfl, hlt⟩
        · exact hp a ha
      · rcases hb : bodyPairs body with e | ps
        · simp only [hr, hb] at h
          cases h
          refine ⟨[⟨limit, st.offset, false, st.mapping⟩], by simp [LoopRes.st], ?_⟩
          intro a ha
          rcases List.mem_singleton.mp ha with rfl
          exact ⟨rfl, hlt⟩
        · simp only [hr, hb] at h
          obtain ⟨ext, htr, hp⟩ := ih (otail oracle) _ res h
          refine ⟨⟨limit, st.offset, true, insertAll st.mapping ps⟩ :: ext, by rw [htr]; simp, ?_⟩
          intro a ha
          rcases List.mem_cons.mp ha with ha | ha
          · exact ha ▸ ⟨rfl, hlt⟩
          · exact hp a ha
    case isFalse hlt =>
      cases h
      exact ⟨[], by simp [LoopRes.st], by simp⟩

/-- C7: in any run whose first response parses to metadata
`(total, limit)`, every request after the first is issued with query
parameter `limit` equal to the first page's limit and offset below the
first page's total — and the run's entire outcome is unchanged if the
later responses' metadata (or anything outside their `data` items) is
replaced arbitrarily: `total` and `limit` are never re-read. -/
theorem claim_c7 (oracle : Nat → HttpOutcome) (writeOk : Bool) (fuel : Nat)
    (r : RunResult) (body₀ : Json) (total limit : Int)
    (hresp : handleResp (oracle 0) = .ok body₀)
    (hhdr : headerInfo body₀ = .ok (total, limit))
    (hrun : fetch_all_solar_systems oracle writeOk fuel = some r) :
    (∀ a ∈ r.trace.tail, a.lim = limit ∧ a.off < total) ∧
    (∀ oracle₂ : Nat → HttpOutcome, oracle₂ 0 = oracle 0 →
      (∀ n, view (oracle₂ (n + 1)) = view (oracle (n + 1))) →
      fetch_all_solar_systems oracle₂ writeOk fuel = some r) := by
  unfold fetch_all_solar_systems at hrun
  simp only [hresp, hhdr] at hrun
  rcases hb : bodyPairs body₀ with e | ps0
  · simp only [hb] at hrun
    cases hrun
    constructor
    · intro a ha
      simp at ha
    · intro or₂ h0 hv
      unfold fetch_all_solar_systems
      rw [h0]
      simp only [hresp, hhdr, hb]
  · simp only [hb] at hrun
    rcases hl : loop limit total (otail oracle) fuel
        ⟨insertAll [] ps0, limit, [⟨100, 0, true, insertAll [] ps0⟩]⟩ with _ | lres
    · rw [hl] at hrun
      simp at hrun
    · rw [hl] at hrun
      obtain ⟨ext, htr, hp⟩ := loop_trace_ext limit total fuel (otail oracle) _ lres hl
      have hcongr : ∀ or₂ : Nat → HttpOutcome, or₂ 0 = oracle 0 →
          (∀ n, view (or₂ (n + 1)) = view (oracle (n + 1))) →
          fetch_all_solar_systems or₂ writeOk fuel = some r := by
        intro or₂ h0 hv
        unfold fetch_all_solar_systems
        rw [h0]
        simp only [hresp, hhdr, hb]
        rw [loop_view_congr limit total fuel (otail or₂) (otail oracle) _ (fun n => hv n), hl]
        cases lres with
        | done st => simp only at hrun ⊢; exact hrun
        | raised st e => simp only at hrun ⊢; exact hrun
      cases lres with
      | done st =>
        simp only at hrun
        cases hrun
        simp only [LoopRes.st] at htr
        refine ⟨?_, hcongr⟩
        intro a ha
        apply hp
        replace ha : a ∈ st.trace.tail := ha
        rw [htr] at ha
        simpa using ha
      | raised st e =>
        simp only at hrun
        cases hrun
        simp only [LoopRes.st] at htr
        refine ⟨?_, hcongr⟩
        intro a ha
        apply hp
        replace ha : a ∈ st.trace.tail := ha
        rw [htr] at ha
        simpa using ha

/-- Oracle reporting `total = 250`, `limit = 100` on every page. -/
def orC7 : Nat → HttpOutcome := fun _ => .resp 200 (some (mkPage 250 100 []))

/-- Same as `orC7` except that every page after the first carries wildly
different metadata (`total = 999`, `limit = 1`); only the `data` items
agree. -/
def orC7meta : Nat → HttpOutcome :=
  fun n => if n = 0 then .resp 200 (some (mkPage 250 100 []))
           else .resp 200 (some (mkPage 999 1 []))

theorem claim_c7_witness :
    (∀ a ∈ (RunResult.mk (.ok [])
        [⟨100, 0, true, []⟩, ⟨100, 100, true, []⟩, ⟨100, 200, true, []⟩]
        (some [])).trace.tail, a.lim = 100 ∧ a.off < 250) ∧
    fetch_all_solar_systems orC7meta true 2 =
      some ⟨.ok [], [⟨100, 0, true, []⟩, ⟨100, 100, true, []⟩, ⟨100, 200, true, []⟩],
        some []⟩ := by
  have h := claim_c7 orC7 true 2
    ⟨.ok [], [⟨100, 0, true, []⟩, ⟨100, 100, true, []⟩, ⟨100, 200, true, []⟩], some []⟩
    (mkPage 250 100 []) 250 100 rfl rfl rfl
  exact ⟨h.1, h.2 orC7meta rfl (fun _ => rfl)⟩

/-! ## C9: a failed sink write does not change the returned mapping -/

/-- C9: the returned value of `fetch_all_solar_systems` is identical
whether the final file write succeeds or fails, and after a failed write
no file content exists; the mapping returned after a failed write is the
mapping accumulated before the write was attempted. -/
theorem claim_c9 (oracle : Nat → HttpOutcome) (fuel : Nat) :
    (fetch_all_solar_systems oracle false fuel).map RunResult.result =
      (fetch_all_solar_systems oracle true fuel).map RunResult.result ∧
    (fetch_all_solar_systems oracle false fuel).bind RunResult.file = none := by
  unfold fetch_all_solar_systems
  rcases hr : handleResp (oracle 0) with e | data
  · simp [hr]
  · rcases hh : headerInfo data with e | tl
    · simp [hr, hh]
    · obtain ⟨total, limit⟩ := tl
      rcases hb : bodyPairs data with e | ps0
      · simp [hr, hh, hb]
      · rcases hl : loop limit total (otail oracle) fuel
            ⟨insertAll [] ps0, limit, [⟨100, 0, true, insertAll [] ps0⟩]⟩ with _ | lres
        · simp [hr, hh, hb, hl]
        · cases lres with
          | done st => simp [hr, hh, hb, hl]
          | raised st e => simp [hr, hh, hb, hl]

/-! ## C10: termination of the fetch loop -/

/-- The raw integer metadata of the first response, before the
`ZeroDivisionError` check of line 35. -/
def metaVals (body : Json) : Option (Int × Int) :=
  match getKey body "metadata" with
  | .error _ => none
  | .ok md =>
    match getKey md "total", getKey md "limit" with
    | .ok t, .ok l =>
      match asInt t, asInt l with
      | .ok total, .ok limit => some (total, limit)
      | _, _ => none
    | _, _ => none

theorem headerInfo_of_metaVals {body : Json} {total limit : Int}
    (h : metaVals body = some (total, limit)) :
    headerInfo body =
      if limit = 0 then .error .zeroDivisionError else .ok (total, limit) := by
  unfold metaVals at h
  unfold headerInfo
  rcases h1 : getKey body "metadata" with e | md <;> simp only [h1] at h ⊢
  · simp at h
  · rcases h2 : getKey md "total" with e | t <;> simp only [h2] at h ⊢
    · simp at h
    · rcases h3 : getKey md "limit" with e | l <;> simp only [h3] at h ⊢
      · simp at h
      · rcases h4 : asInt t with e | total' <;> simp only [h4] at h ⊢
        · simp at h
        · rcases h5 : asInt l with e | limit' <;> simp only [h5] at h ⊢
          · simp at h
          · simp only [Option.some.injEq, Prod.mk.injEq] at h
            rw [h.1, h.2]

/-- With a strictly negative page size and a total the cursor can never
reach, a failure-free loop runs forever: it yields no result at any
fuel. -/
theorem loop_neg_divergence (limit total : Int) (hL : limit ≤ -1) :
    ∀ (fuel : Nat) (oracle : Nat → HttpOutcome) (pages : Nat → List (Prim × Json)) (st : St),
      GoodOracle oracle pages → st.offset < total →
      loop limit total oracle fuel st = none := by
  intro fuel
  induction fuel with
  | zero =>
    intro oracle pages st hg hlt
    rw [loop, if_pos hlt]
  | succ fuel ih =>
    intro oracle pages st hg hlt
    obtain ⟨body, hresp, hbp⟩ := hg 0
    rw [loop, if_pos hlt]
    simp only [hresp, hbp]
    exact ih (otail oracle) (otail pages) _ hg.tail (by
      show st.offset + limit < total
      omega)

/-- C10 (amended): for a failure-free oracle whose first response carries
integer metadata `(total, limit)`, the run returns a mapping for some
fuel exactly when `limit ≥ 1`, or `limit ≤ -1` with `total ≤ limit`.  In
the remaining cases nothing is ever returned — but for `limit = 0` the
reason is not an infinite request loop: line 35 raises
`ZeroDivisionError` and the run aborts after exactly one request, at any
fuel. -/
theorem claim_c10 (oracle : Nat → HttpOutcome) (pages : Nat → List (Prim × Json))
    (writeOk : Bool) (body₀ : Json) (total limit : Int)
    (hg : GoodOracle oracle pages)
    (hresp : handleResp (oracle 0) = .ok body₀)
    (hmv : metaVals body₀ = some (total, limit)) :
    ((∃ fuel r M, fetch_all_solar_systems oracle writeOk fuel = some r ∧ r.result = .ok M) ↔
      (1 ≤ limit ∨ (limit ≤ -1 ∧ total ≤ limit))) ∧
    (limit = 0 → ∀ fuel, fetch_all_solar_systems oracle writeOk fuel =
      some ⟨.error .zeroDivisionError, [⟨100, 0, false, []⟩], none⟩) := by
  have hbp : bodyPairs body₀ = .ok (pages 0) := by
    obtain ⟨b, hb, hbp⟩ := hg 0
    rw [hresp] at hb
    cases hb
    exact hbp
  have hhdr := headerInfo_of_metaVals hmv
  constructor
  · constructor
    · rintro ⟨fuel, r, M, hrun, hok⟩
      by_contra hneg
      push_neg at hneg
      rcases (by omega : limit = 0 ∨ (limit ≤ -1 ∧ limit < total)) with h0 | ⟨hneg1, hlt⟩
      · rw [h0] at hhdr
        rw [if_pos rfl] at hhdr
        unfold fetch_all_solar_systems at hrun
        simp only [hresp, hhdr] at hrun
        cases hrun
        exact absurd hok (by simp)
      · rw [if_neg (by omega)] at hhdr
        unfold fetch_all_solar_systems at hrun
        simp only [hresp, hhdr, hbp] at hrun
        rw [loop_neg_divergence limit total hneg1 fuel (otail oracle) (otail pages) _
          hg.tail (show limit < total from hlt)] at hrun
        simp at hrun
    · intro h
      by_cases hL : 1 ≤ limit
      · rw [if_neg (by omega)] at hhdr
        refine ⟨nIters total limit limit, ?_⟩
        unfold fetch_all_solar_systems
        simp only [hresp, hhdr, hbp]
        rw [loop_good limit total hL (nIters total limit limit) (otail oracle) (otail pages)
          ⟨insertAll [] (pages 0), limit, [⟨100, 0, true, insertAll [] (pages 0)⟩]⟩
          hg.tail (le_refl _)]
        exact ⟨_, _, rfl, rfl⟩
      · rcases h with h | ⟨h1, h2⟩
        · omega
        · rw [if_neg (by omega)] at hhdr
          refine ⟨0, ?_⟩
          unfold fetch_all_solar_systems
          simp only [hresp, hhdr, hbp]
          rw [show loop limit total (otail oracle) 0
              ⟨insertAll [] (pages 0), limit, [⟨100, 0, true, insertAll [] (pages 0)⟩]⟩ =
              some (.done ⟨insertAll [] (pages 0), limit,
                [⟨100, 0, true, insertAll [] (pages 0)⟩]⟩) from by
            rw [loop, if_neg (by show ¬ limit < total; omega)]]
          exact ⟨_, _, rfl, rfl⟩
  · intro h0 fuel
    rw [h0] at hhdr
    rw [if_pos rfl] at hhdr
    unfold fetch_all_solar_systems
    simp only [hresp, hhdr]

/-- Failure-free oracle with `total = 3`, `limit = 2`. -/
def orC10 : Nat → HttpOutcome := fun _ => .resp 200 (some (mkPage 3 2 []))

theorem claim_c10_witness :
    ∃ fuel r M, fetch_all_solar_systems orC10 true fuel = some r ∧ r.result = .ok M :=
  (claim_c10 orC10 (fun _ => []) true (mkPage 3 2 []) 3 2
    (fun _ => ⟨mkPage 3 2 [], rfl, rfl⟩) rfl rfl).1.mpr (Or.inl (by decide))

/-- Failure-free oracle whose first response reports `limit = 0` and
`total = 1`. -/
def orL0 : Nat → HttpOutcome := fun _ => .resp 200 (some (mkPage 1 0 []))

theorem claim_c10_counterexample :
    (fetch_all_solar_systems orL0 true 5 =
      some ⟨.error .zeroDivisionError, [⟨100, 0, false, []⟩], none⟩) ∧
    ¬ (1 ≤ (0 : Int) ∨ ((0 : Int) ≤ -1 ∧ (1 : Int) ≤ 0)) :=
  ⟨rfl, by decide⟩

/-! ## C8: the output JSON format round-trips

`fetch_all_solar_systems` persists the mapping with
`json.dump(mapping, f, indent=2, ensure_ascii=False)`.  `dumps` below is
a character-exact model of that output for a string-to-integer dict:
pretty-printed with a two-space indent, `": "` between key and value,
`",\n"` between entries, non-ASCII characters kept verbatim, and the
(only) escapes Python emits: `\" \\ \n \t \r \b \f` and `\u00XX` for the
remaining control characters.  `loads` models reading the file back with
`json.load`: a whitespace-tolerant parser of one JSON object with
integer values, building a dict with last-write-wins as Python does. -/

/-- Lowercase hexadecimal digit, as Python's `json` emits in `\uXXXX`. -/
def hexDigit (n : Nat) : Char :=
  if n < 10 then Char.ofNat (48 + n) else Char.ofNat (87 + n)

/-- Numeric value of a hexadecimal digit character. -/
def hexVal (c : Char) : Option Nat :=
  if 48 ≤ c.toNat ∧ c.toNat ≤ 57 then some (c.toNat - 48)
  else if 97 ≤ c.toNat ∧ c.toNat ≤ 102 then some (c.toNat - 87)
  else if 65 ≤ c.toNat ∧ c.toNat ≤ 70 then some (c.toNat - 55)
  else none

/-- How `json.dump(..., ensure_ascii=False)` writes one character of a
string. -/
def escC (c : Char) : List Char :=
  if c = '"' then ['\\', '"']
  else if c = '\\' then ['\\', '\\']
  else if c = '\n' then ['\\', 'n']
  else if c = '\t' then ['\\', 't']
  else if c = '\r' then ['\\', 'r']
  else if c = Char.ofNat 8 then ['\\', 'b']
  else if c = Char.ofNat 12 then ['\\', 'f']
  else if c.toNat < 32 then
    ['\\', 'u', '0', '0', hexDigit (c.toNat / 16), hexDigit (c.toNat % 16)]
  else [c]

/-- Escape a whole string. -/
def escL : List Char → List Char
  | [] => []
  | c :: rest => escC c ++ escL rest

/-- The decimal digit character for `n < 10`. -/
def digitChar (n : Nat) : Char := Char.ofNat (48 + n)

/-- Decimal digits of `n`, most significant first (`fuel ≥ n + 1`
suffices). -/
def natCharsAux : Nat → Nat → List Char
  | 0, _ => []
  | fuel + 1, n =>
    if n < 10 then [digitChar n] else natCharsAux fuel (n / 10) ++ [digitChar (n % 10)]

/-- Decimal representation of a natural number, as `str` prints it. -/
def natChars (n : Nat) : List Char := natCharsAux (n + 1) n

/-- Decimal representation of an integer, as Python's `str`/`json` print
it. -/
def intChars (i : Int) : List Char :=
  if i < 0 then '-' :: natChars (-i).toNat else natChars i.toNat

/-- One printed entry: two-space indent, quoted escaped key, `": "`,
value. -/
def entryChars (p : String × Int) : List Char :=
  [' ', ' ', '"'] ++ escL p.1.data ++ ['"', ':', ' '] ++ intChars p.2

/-- All entries, separated by `",\n"`. -/
def entriesChars : List (String × Int) → List Char
  | [] => []
  | [p] => entryChars p
  | p :: q :: t => entryChars p ++ [',', '\n'] ++ entriesChars (q :: t)

/-- The exact character stream `json.dump(m, f, indent=2,
ensure_ascii=False)` writes for the dict `m`. -/
def dumpsChars (m : List (String × Int)) : List Char :=
  match m with
  | [] => ['{', '}']
  | _ => '{' :: '\n' :: (entriesChars m ++ ['\n', '}'])

/-- The output file content as a string. -/
def dumps (m : List (String × Int)) : String := ⟨dumpsChars m⟩

/-- JSON insignificant whitespace. -/
def isWsChar (c : Char) : Bool :=
  c == ' ' || c == '\n' || c == '\t' || c == '\r'

/-- Drop leading whitespace. -/
def skipWs : List Char → List Char
  | [] => []
  | c :: rest => if isWsChar c then skipWs rest else c :: rest

/-- Numeric value of a decimal digit character. -/
def digToNat (c : Char) : Option Nat :=
  if 48 ≤ c.toNat ∧ c.toNat ≤ 57 then some (c.toNat - 48) else none

/-- Consume leading digits into an accumulator. -/
def parseNatAux : List Char → Nat → Nat × List Char
  | [], acc => (acc, [])
  | c :: rest, acc =>
    match digToNat c with
    | some d => parseNatAux rest (10 * acc + d)
    | none => (acc, c :: rest)

/-- Parse a nonempty digit run. -/
def parsePos (l : List Char) : Option (Nat × List Char) :=
  match l with
  | [] => none
  | c :: _ => if (digToNat c).isSome then some (parseNatAux l 0) else none

/-- Parse an optionally negated integer literal. -/
def parseIntChars (l : List Char) : Option (Int × List Char) :=
  match l with
  | [] => none
  | c :: rest =>
    if c = '-' then (parsePos rest).map (fun p => (-(p.1 : Int), p.2))
    else (parsePos l).map (fun p => ((p.1 : Int), p.2))

/-- Parse the remainder of a JSON string literal (after the opening
quote), undoing the escapes. -/
def parseStrChars : List Char → Option (List Char × List Char)
  | [] => none
  | c :: rest =>
    if c = '"' then some ([], rest)
    else if c = '\\' then
      match rest with
      | [] => none
      | e :: rest2 =>
        if e = '"' then (parseStrChars rest2).map (fun p => ('"' :: p.1, p.2))
        else if e = '\\' then (parseStrChars rest2).map (fun p => ('\\' :: p.1, p.2))
        else if e = 'n' then (parseStrChars rest2).map (fun p => ('\n' :: p.1, p.2))
        else if e = 't' then (parseStrChars rest2).map (fun p => ('\t' :: p.1, p.2))
        else if e = 'r' then (parseStrChars rest2).map (fun p => ('\r' :: p.1, p.2))
        else if e = 'b' then (parseStrChars rest2).map (fun p => (Char.ofNat 8 :: p.1, p.2))
        else if e = 'f' then (parseStrChars rest2).map (fun p => (Char.ofNat 12 :: p.1, p.2))
        else if e = 'u' then
          match rest2 with
          | h1 :: h2 :: h3 :: h4 :: rest3 =>
            match hexVal h1, hexVal h2, hexVal h3, hexVal h4 with
            | some a, some b, some c', some d =>
              (parseStrChars rest3).map
                (fun p => (Char.ofNat (4096 * a + 256 * b + 16 * c' + d) :: p.1, p.2))
            | _, _, _, _ => none
          | _ => none
        else none
    else (parseStrChars rest).map (fun p => (c :: p.1, p.2))

/-- Parse the entries of a nonempty object, positioned at the opening
quote of a key; consumes the closing brace. -/
def parseItems : Nat → List Char → Option (List (String × Int) × List Char)
  | 0, _ => none
  | fuel + 1, l =>
    match l with
    | '"' :: l1 =>
      match parseStrChars l1 with
      | none => none
      | some (kcs, r1) =>
        match skipWs r1 with
        | ':' :: r2 =>
          match parseIntChars (skipWs r2) with
          | none => none
          | some (v, r3) =>
            match skipWs r3 with
            | ',' :: r4 =>
              (parseItems fuel (skipWs r4)).map (fun p => ((⟨kcs⟩, v) :: p.1, p.2))
            | '}' :: r4 => some ([(⟨kcs⟩, v)], r4)
            | _ => none
        | _ => none
    | _ => none

/-- Python dict assignment for the string-keyed dict `json.load`
builds. -/
def dinsertS (m : List (String × Int)) (k : String) (v : Int) : List (String × Int) :=
  if k ∈ m.map Prod.fst then m.map (fun p => if p.1 = k then (k, v) else p)
  else m ++ [(k, v)]

/-- Build the dict from parsed entries in order (duplicate keys resolve
last-write-wins, as in Python). -/
def insertAllS (m : List (String × Int)) : List (String × Int) → List (String × Int)
  | [] => m
  | (k, v) :: rest => insertAllS (dinsertS m k v) rest

/-- `json.load` on the output format: one JSON object with integer
values, surrounded by optional whitespace. -/
def loads (s : String) : Option (List (String × Int)) :=
  match skipWs s.data with
  | '{' :: r =>
    match skipWs r with
    | '}' :: r2 => if skipWs r2 = [] then some [] else none
    | r2 =>
      match parseItems (s.data.length + 1) r2 with
      | none => none
      | some (items, rest) =>
        if skipWs rest = [] then some (insertAllS [] items) else none
  | _ => none

/-! ### String escaping round-trips -/

theorem hexVal_hexDigit (x : Nat) (h : x < 16) : hexVal (hexDigit x) = some x := by
  interval_cases x <;> decide

theorem digToNat_digitChar (n : Nat) (h : n < 10) : digToNat (digitChar n) = some n := by
  interval_cases n <;> decide

theorem parseStr_quote (l : List Char) : parseStrChars ('"' :: l) = some ([], l) := by
  rw [parseStrChars.eq_def]
  rfl

theorem parseStr_esc_quote (l : List Char) :
    parseStrChars ('\\' :: '"' :: l) = (parseStrChars l).map (fun p => ('"' :: p.1, p.2)) := by
  rw [parseStrChars.eq_def]
  rfl

theorem parseStr_esc_backslash (l : List Char) :
    parseStrChars ('\\' :: '\\' :: l) = (parseStrChars l).map (fun p => ('\\' :: p.1, p.2)) := by
  rw [parseStrChars.eq_def]
  rfl

theorem parseStr_esc_n (l : List Char) :
    parseStrChars ('\\' :: 'n' :: l) = (parseStrChars l).map (fun p => ('\n' :: p.1, p.2)) := by
  rw [parseStrChars.eq_def]
  rfl

theorem parseStr_esc_t (l : List Char) :
    parseStrChars ('\\' :: 't' :: l) = (parseStrChars l).map (fun p => ('\t' :: p.1, p.2)) := by
  rw [parseStrChars.eq_def]
  rfl

theorem parseStr_esc_r (l : List Char) :
    parseStrChars ('\\' :: 'r' :: l) = (parseStrChars l).map (fun p => ('\r' :: p.1, p.2)) := by
  rw [parseStrChars.eq_def]
  rfl

theorem parseStr_esc_b (l : List Char) :
    parseStrChars ('\\' :: 'b' :: l) =
      (parseStrChars l).map (fun p => (Char.ofNat 8 :: p.1, p.2)) := by
  rw [parseStrChars.eq_def]
  rfl

theorem parseStr_esc_f (l : List Char) :
    parseStrChars ('\\' :: 'f' :: l) =
      (parseStrChars l).map (fun p => (Char.ofNat 12 :: p.1, p.2)) := by
  rw [parseStrChars.eq_def]
  rfl

theorem parseStr_esc_u (a b : Char) (l : List Char) (x y : Nat)
    (hx : hexVal a = some x) (hy : hexVal b = some y) :
    parseStrChars ('\\' :: 'u' :: '0' :: '0' :: a :: b :: l) =
      (parseStrChars l).map
        (fun p => (Char.ofNat (4096 * 0 + 256 * 0 + 16 * x + y) :: p.1, p.2)) := by
  rw [parseStrChars.eq_def]
  show (match hexVal '0', hexVal '0', hexVal a, hexVal b with
    | some a', some b', some c', some d =>
      (parseStrChars l).map
        (fun p : List Char × List Char =>
          (Char.ofNat (4096 * a' + 256 * b' + 16 * c' + d) :: p.1, p.2))
    | _, _, _, _ => none) = _
  rw [hx, hy]
  rfl

theorem parseStr_plain (c : Char) (l : List Char) (h1 : ¬ c = '"') (h2 : ¬ c = '\\') :
    parseStrChars (c :: l) = (parseStrChars l).map (fun p => (c :: p.1, p.2)) := by
  rw [parseStrChars.eq_def]
  show (if c = '"' then some ([], l)
    else if c = '\\' then
      match l with
      | [] => none
      | e :: rest2 =>
        if e = '"' then (parseStrChars rest2).map (fun p => ('"' :: p.1, p.2))
        else if e = '\\' then (parseStrChars rest2).map (fun p => ('\\' :: p.1, p.2))
        else if e = 'n' then (parseStrChars rest2).map (fun p => ('\n' :: p.1, p.2))
        else if e = 't' then (parseStrChars rest2).map (fun p => ('\t' :: p.1, p.2))
        else if e = 'r' then (parseStrChars rest2).map (fun p => ('\r' :: p.1, p.2))
        else if e = 'b' then (parseStrChars rest2).map (fun p => (Char.ofNat 8 :: p.1, p.2))
        else if e = 'f' then (parseStrChars rest2).map (fun p => (Char.ofNat 12 :: p.1, p.2))
        else if e = 'u' then
          match rest2 with
          | h1 :: h2 :: h3 :: h4 :: rest3 =>
            match hexVal h1, hexVal h2, hexVal h3, hexVal h4 with
            | some a, some b, some c', some d =>
              (parseStrChars rest3).map
                (fun p => (Char.ofNat (4096 * a + 256 * b + 16 * c' + d) :: p.1, p.2))
            | _, _, _, _ => none
          | _ => none
        else none
    else (parseStrChars l).map (fun p => (c :: p.1, p.2))) =
    (parseStrChars l).map (fun p => (c :: p.1, p.2))
  rw [if_neg h1, if_neg h2]

/-- Undoing one escaped character. -/
theorem parseStr_escC (c : Char) (l : List Char) :
    parseStrChars (escC c ++ l) = (parseStrChars l).map (fun p => (c :: p.1, p.2)) := by
  unfold escC
  by_cases h1 : c = '"'
  · subst h1; rw [if_pos rfl]; exact parseStr_esc_quote l
  · rw [if_neg h1]
    by_cases h2 : c = '\\'
    · subst h2; rw [if_pos rfl]; exact parseStr_esc_backslash l
    · rw [if_neg h2]
      by_cases h3 : c = '\n'
      · subst h3; rw [if_pos rfl]; exact parseStr_esc_n l
      · rw [if_neg h3]
        by_cases h4 : c = '\t'
        · subst h4; rw [if_pos rfl]; exact parseStr_esc_t l
        · rw [if_neg h4]
          by_cases h5 : c = '\r'
          · subst h5; rw [if_pos rfl]; exact parseStr_esc_r l
          · rw [if_neg h5]
            by_cases h6 : c = Char.ofNat 8
            · subst h6; rw [if_pos rfl]; exact parseStr_esc_b l
            · rw [if_neg h6]
              by_cases h7 : c = Char.ofNat 12
              · subst h7; rw [if_pos rfl]; exact parseStr_esc_f l
              · rw [if_neg h7]
                by_cases h8 : c.toNat < 32
                · rw [if_pos h8]
                  rw [show ('\\' :: 'u' :: '0' :: '0' ::
                      hexDigit (c.toNat / 16) :: hexDigit (c.toNat % 16) :: []) ++ l =
                    '\\' :: 'u' :: '0' :: '0' ::
                      hexDigit (c.toNat / 16) :: hexDigit (c.toNat % 16) :: l from rfl]
                  rw [parseStr_esc_u _ _ l (c.toNat / 16) (c.toNat % 16)
                    (hexVal_hexDigit _ (by omega)) (hexVal_hexDigit _ (by omega))]
                  rw [show 4096 * 0 + 256 * 0 + 16 * (c.toNat / 16) + c.toNat % 16 = c.toNat
                    from by omega]
                  rw [Char.ofNat_toNat]
                · rw [if_neg h8]
                  exact parseStr_plain c l h1 h2

/-- Undoing the escaping of a whole string: the parser consumes exactly
the escaped characters up to the closing quote and returns the original
string. -/
theorem parseStr_escL (s : List Char) : ∀ l : List Char,
    parseStrChars (escL s ++ '"' :: l) = some (s, l) := by
  induction s with
  | nil => intro l; exact parseStr_quote l
  | cons c t ih =>
    intro l
    show parseStrChars ((escC c ++ escL t) ++ '"' :: l) = _
    rw [List.append_assoc, parseStr_escC, ih l]
    rfl

/-! ### Integer printing round-trips -/

/-- The next character (if any) is not a decimal digit. -/
def headNotDigit : List Char → Prop
  | [] => True
  | c :: _ => digToNat c = none

theorem natCharsAux_digits : ∀ (fuel n : Nat), n < fuel →
    ∀ c ∈ natCharsAux fuel n, 48 ≤ c.toNat ∧ c.toNat ≤ 57 := by
  intro fuel
  induction fuel with
  | zero => intro n h; omega
  | succ fuel ih =>
    intro n h c hc
    rw [natCharsAux] at hc
    by_cases h10 : n < 10
    · rw [if_pos h10] at hc
      rcases List.mem_singleton.mp hc with rfl
      unfold digitChar
      interval_cases n <;> decide
    · rw [if_neg h10] at hc
      rcases List.mem_append.mp hc with hc | hc
      · exact ih (n / 10) (by omega) c hc
      · rcases List.mem_singleton.mp hc with rfl
        unfold digitChar
        have hk : n % 10 < 10 := by omega
        revert hk
        generalize n % 10 = k
        intro hk
        interval_cases k <;> decide

theorem natCharsAux_ne_nil (fuel n : Nat) (h : n < fuel) : natCharsAux fuel n ≠ [] := by
  cases fuel with
  | zero => omega
  | succ fuel =>
    rw [natCharsAux]
    by_cases h10 : n < 10
    · rw [if_pos h10]; simp
    · rw [if_neg h10]; simp

theorem parseNatAux_stop (r : List Char) (acc : Nat) (h : headNotDigit r) :
    parseNatAux r acc = (acc, r) := by
  cases r with
  | nil => rfl
  | cons c t =>
    have h' : digToNat c = none := h
    simp only [parseNatAux, h']

theorem parseNatAux_run : ∀ (fuel n acc : Nat) (r : List Char), n < fuel →
    parseNatAux (natCharsAux fuel n ++ r) acc =
      parseNatAux r (acc * 10 ^ (natCharsAux fuel n).length + n) := by
  intro fuel
  induction fuel with
  | zero => intro n acc r h; omega
  | succ fuel ih =>
    intro n acc r h
    rw [natCharsAux]
    by_cases h10 : n < 10
    · rw [if_pos h10]
      show parseNatAux (digitChar n :: r) acc = _
      simp only [parseNatAux, digToNat_digitChar n h10]
      have he : 10 * acc + n = acc * 10 ^ ([digitChar n].length) + n := by
        simp only [List.length_singleton, pow_one]
        omega
      rw [he]
    · rw [if_neg h10]
      rw [List.append_assoc, ih (n / 10) acc ([digitChar (n % 10)] ++ r) (by omega)]
      show parseNatAux (digitChar (n % 10) :: r) _ = _
      simp only [parseNatAux, digToNat_digitChar (n % 10) (by omega)]
      congr 1
      rw [List.length_append, List.length_singleton, pow_add, pow_one]
      rw [show acc * (10 ^ (natCharsAux fuel (n / 10)).length * 10) =
        acc * 10 ^ (natCharsAux fuel (n / 10)).length * 10 from by ring]
      generalize acc * 10 ^ (natCharsAux fuel (n / 10)).length = u
      omega

theorem parsePos_natChars (n : Nat) (r : List Char) (hr : headNotDigit r) :
    parsePos (natChars n ++ r) = some (n, r) := by
  obtain ⟨c, cs, hform⟩ :=
    List.exists_cons_of_ne_nil (natCharsAux_ne_nil (n + 1) n (by omega))
  have hcmem : c ∈ natCharsAux (n + 1) n := by rw [hform]; exact List.mem_cons_self _ _
  have hcd := natCharsAux_digits (n + 1) n (by omega) c hcmem
  have hdig : (digToNat c).isSome = true := by
    unfold digToNat
    rw [if_pos hcd]
    rfl
  show parsePos (natCharsAux (n + 1) n ++ r) = _
  rw [hform]
  show parsePos (c :: (cs ++ r)) = _
  show (if (digToNat c).isSome then some (parseNatAux (c :: (cs ++ r)) 0) else none) = _
  rw [if_pos hdig]
  rw [show (c :: (cs ++ r) : List Char) = natCharsAux (n + 1) n ++ r from by rw [hform]; rfl]
  rw [parseNatAux_run (n + 1) n 0 r (by omega), parseNatAux_stop r _ hr]
  simp

theorem parseInt_intChars (i : Int) (r : List Char) (hr : headNotDigit r) :
    parseIntChars (intChars i ++ r) = some (i, r) := by
  unfold intChars
  by_cases hneg : i < 0
  · rw [if_pos hneg]
    show parseIntChars ('-' :: (natChars (-i).toNat ++ r)) = _
    show (if '-' = '-' then
        (parsePos (natChars (-i).toNat ++ r)).map (fun p => (-(p.1 : Int), p.2))
      else
        (parsePos ('-' :: (natChars (-i).toNat ++ r))).map (fun p => ((p.1 : Int), p.2))) = _
    rw [if_pos rfl, parsePos_natChars _ r hr]
    show some (-((((-i).toNat : Nat)) : Int), r) = some (i, r)
    rw [show -((((-i).toNat : Nat)) : Int) = i from by omega]
  · rw [if_neg hneg]
    obtain ⟨c, cs, hform⟩ :=
      List.exists_cons_of_ne_nil (natCharsAux_ne_nil (i.toNat + 1) i.toNat (by omega))
    have hcmem : c ∈ natCharsAux (i.toNat + 1) i.toNat := by
      rw [hform]; exact List.mem_cons_self _ _
    have hcd := natCharsAux_digits (i.toNat + 1) i.toNat (by omega) c hcmem
    have hcdash : ¬ c = '-' := by
      intro he
      subst he
      revert hcd
      decide
    show parseIntChars (natCharsAux (i.toNat + 1) i.toNat ++ r) = _
    rw [hform]
    show parseIntChars (c :: (cs ++ r)) = _
    show (if c = '-' then (parsePos (cs ++ r)).map (fun p => (-(p.1 : Int), p.2))
      else (parsePos (c :: (cs ++ r))).map (fun p => ((p.1 : Int), p.2))) = _
    rw [if_neg hcdash]
    rw [show (c :: (cs ++ r) : List Char) = natChars i.toNat ++ r from by
      show _ = natCharsAux (i.toNat + 1) i.toNat ++ r
      rw [hform]
      rfl]
    rw [parsePos_natChars _ r hr]
    show some (((i.toNat : Nat) : Int), r) = some (i, r)
    rw [show (((i.toNat : Nat)) : Int) = i from by omega]

/-! ### Whitespace and object-level round-trip -/

theorem skipWs_space (l : List Char) : skipWs (' ' :: l) = skipWs l := by
  rw [skipWs, if_pos (by decide : isWsChar ' ' = true)]

theorem skipWs_nl (l : List Char) : skipWs ('\n' :: l) = skipWs l := by
  rw [skipWs, if_pos (by decide : isWsChar '\n' = true)]

theorem skipWs_not (c : Char) (h : isWsChar c = false) (l : List Char) :
    skipWs (c :: l) = c :: l := by
  rw [skipWs, if_neg]
  simp [h]

theorem skipWs_quote (l : List Char) : skipWs ('"' :: l) = '"' :: l :=
  skipWs_not _ (by decide) l

theorem skipWs_colon (l : List Char) : skipWs (':' :: l) = ':' :: l :=
  skipWs_not _ (by decide) l

theorem skipWs_brace (l : List Char) : skipWs ('}' :: l) = '}' :: l :=
  skipWs_not _ (by decide) l

theorem skipWs_comma (l : List Char) : skipWs (',' :: l) = ',' :: l :=
  skipWs_not _ (by decide) l

theorem isWsChar_false_of_digit {c : Char} (h : 48 ≤ c.toNat ∧ c.toNat ≤ 57) :
    isWsChar c = false := by
  unfold isWsChar
  have h1 : ¬ c = ' ' := fun he => by subst he; revert h; decide
  have h2 : ¬ c = '\n' := fun he => by subst he; revert h; decide
  have h3 : ¬ c = '\t' := fun he => by subst he; revert h; decide
  have h4 : ¬ c = '\r' := fun he => by subst he; revert h; decide
  simp [h1, h2, h3, h4]

theorem skipWs_intChars (i : Int) (Z : List Char) :
    skipWs (intChars i ++ Z) = intChars i ++ Z := by
  unfold intChars
  by_cases hneg : i < 0
  · rw [if_pos hneg]
    show skipWs ('-' :: (natChars (-i).toNat ++ Z)) = _
    rw [skipWs_not '-' (by decide)]
    rfl
  · rw [if_neg hneg]
    obtain ⟨c, cs, hform⟩ :=
      List.exists_cons_of_ne_nil (natCharsAux_ne_nil (i.toNat + 1) i.toNat (by omega))
    have hcd := natCharsAux_digits (i.toNat + 1) i.toNat (by omega) c
      (by rw [hform]; exact List.mem_cons_self _ _)
    show skipWs (natCharsAux (i.toNat + 1) i.toNat ++ Z) =
      natCharsAux (i.toNat + 1) i.toNat ++ Z
    rw [hform]
    show skipWs (c :: (cs ++ Z)) = _
    rw [skipWs_not c (isWsChar_false_of_digit hcd)]
    rfl

/-- Parsing the printed entries of a nonempty dict consumes them all,
then the closing brace, and returns the dict unchanged. -/
theorem parseItems_entries : ∀ (m : List (String × Int)) (fuel : Nat) (r : List Char),
    m ≠ [] → m.length ≤ fuel →
    parseItems fuel (skipWs (entriesChars m ++ '\n' :: '}' :: r)) = some (m, r) := by
  intro m
  induction m with
  | nil => intro fuel r hne _; exact absurd rfl hne
  | cons p t ih =>
    intro fuel r _ hlen
    obtain ⟨k, v⟩ := p
    cases fuel with
    | zero => simp at hlen
    | succ fuel =>
      cases t with
      | nil =>
        have hstream : entriesChars [(k, v)] ++ '\n' :: '}' :: r =
            ' ' :: ' ' :: '"' ::
              (escL k.data ++ ('"' :: ':' :: ' ' :: (intChars v ++ ('\n' :: '}' :: r)))) := by
          show entryChars (k, v) ++ '\n' :: '}' :: r = _
          unfold entryChars
          simp [List.append_assoc]
        rw [hstream, skipWs_space, skipWs_space, skipWs_quote]
        have hint : parseIntChars (intChars v ++ ('\n' :: '}' :: r)) =
            some (v, '\n' :: '}' :: r) :=
          parseInt_intChars v _ (show digToNat '\n' = none by decide)
        simp only [parseItems, parseStr_escL, skipWs_colon, skipWs_space, skipWs_nl,
          skipWs_brace, skipWs_intChars, hint]
      | cons q t2 =>
        have hstream : entriesChars ((k, v) :: q :: t2) ++ '\n' :: '}' :: r =
            ' ' :: ' ' :: '"' ::
              (escL k.data ++ ('"' :: ':' :: ' ' ::
                (intChars v ++
                  (',' :: '\n' :: (entriesChars (q :: t2) ++ '\n' :: '}' :: r))))) := by
          show (entryChars (k, v) ++ [',', '\n'] ++ entriesChars (q :: t2)) ++
            '\n' :: '}' :: r = _
          unfold entryChars
          simp [List.append_assoc]
        rw [hstream, skipWs_space, skipWs_space, skipWs_quote]
        have hint : parseIntChars (intChars v ++
            (',' :: '\n' :: (entriesChars (q :: t2) ++ '\n' :: '}' :: r))) =
            some (v, ',' :: '\n' :: (entriesChars (q :: t2) ++ '\n' :: '}' :: r)) :=
          parseInt_intChars v _ (show digToNat ',' = none by decide)
        have hihr := ih fuel r (by simp) (by simp at hlen ⊢; omega)
        simp only [parseItems, parseStr_escL, skipWs_colon, skipWs_space, skipWs_nl,
          skipWs_comma, skipWs_intChars, hint, hihr, Option.map_some']

theorem entriesChars_length_ge : ∀ m : List (String × Int),
    m.length ≤ (entriesChars m).length := by
  intro m
  induction m with
  | nil => simp [entriesChars]
  | cons p t ih =>
    cases t with
    | nil =>
      show (1 : Nat) ≤ (entryChars p).length
      unfold entryChars
      simp
    | cons q t2 =>
      show (p :: q :: t2).length ≤
        (entryChars p ++ [',', '\n'] ++ entriesChars (q :: t2)).length
      simp only [List.length_append, List.length_cons] at ih ⊢
      unfold entryChars
      simp only [List.length_append, List.length_cons, List.length_nil]
      omega

theorem insertAllS_append_self : ∀ (t acc : List (String × Int)),
    (((acc ++ t).map Prod.fst).Nodup) → insertAllS acc t = acc ++ t := by
  intro t
  induction t with
  | nil => intro acc _; simp [insertAllS]
  | cons p rest ih =>
    intro acc h
    obtain ⟨k, v⟩ := p
    rw [insertAllS]
    have hk : k ∉ acc.map Prod.fst := by
      intro hmem
      rw [List.map_append, List.map_cons] at h
      exact (List.disjoint_of_nodup_append h) hmem (List.mem_cons_self _ _)
    rw [show dinsertS acc k v = acc ++ [(k, v)] from by unfold dinsertS; rw [if_neg hk]]
    rw [ih (acc ++ [(k, v)]) (by simpa [List.append_assoc] using h)]
    simp

theorem insertAllS_self (m : List (String × Int)) (h : (m.map Prod.fst).Nodup) :
    insertAllS [] m = m :=
  insertAllS_append_self m [] (by simpa using h)

/-- C8: writing a mapping from names to integer ids in the output JSON
format (`json.dump(..., indent=2, ensure_ascii=False)`) and reading it
back with `json.load` yields exactly the in-memory mapping.  The
hypothesis that the keys are distinct always holds for a Python dict. -/
theorem claim_c8 (m : List (String × Int)) (h : (m.map Prod.fst).Nodup) :
    loads (dumps m) = some m := by
  cases m with
  | nil => rfl
  | cons p t =>
    unfold loads
    rw [show String.data (dumps (p :: t)) =
      '{' :: '\n' :: (entriesChars (p :: t) ++ ['\n', '}']) from rfl]
    rw [skipWs_not '{' (by decide)]
    have hM : ∃ M, skipWs (entriesChars (p :: t) ++ '\n' :: '}' :: ([] : List Char)) =
        '"' :: M := by
      cases t with
      | nil =>
        refine ⟨escL p.1.data ++ ('"' :: ':' :: ' ' ::
          (intChars p.2 ++ ('\n' :: '}' :: []))), ?_⟩
        rw [show entriesChars [p] ++ '\n' :: '}' :: ([] : List Char) =
            ' ' :: ' ' :: '"' :: (escL p.1.data ++ ('"' :: ':' :: ' ' ::
              (intChars p.2 ++ ('\n' :: '}' :: [])))) from by
          show entryChars p ++ _ = _
          unfold entryChars
          simp [List.append_assoc]]
        rw [skipWs_space, skipWs_space, skipWs_quote]
      | cons q t2 =>
        refine ⟨escL p.1.data ++ ('"' :: ':' :: ' ' ::
          (intChars p.2 ++
            (',' :: '\n' :: (entriesChars (q :: t2) ++ '\n' :: '}' :: [])))), ?_⟩
        rw [show entriesChars (p :: q :: t2) ++ '\n' :: '}' :: ([] : List Char) =
            ' ' :: ' ' :: '"' :: (escL p.1.data ++ ('"' :: ':' :: ' ' ::
              (intChars p.2 ++
                (',' :: '\n' :: (entriesChars (q :: t2) ++ '\n' :: '}' :: []))))) from by
          show (entryChars p ++ [',', '\n'] ++ entriesChars (q :: t2)) ++ _ = _
          unfold entryChars
          simp [List.append_assoc]]
        rw [skipWs_space, skipWs_space, skipWs_quote]
    obtain ⟨M, hMeq⟩ := hM
    have hparse : parseItems
        (('{' :: '\n' :: (entriesChars (p :: t) ++ ['\n', '}'])).length + 1)
        ('"' :: M) = some (p :: t, []) := by
      rw [← hMeq]
      apply parseItems_entries (p :: t) _ [] (by simp)
      have hlen := entriesChars_length_ge (p :: t)
      simp only [List.length_cons, List.length_append] at hlen ⊢
      omega
    simp only [skipWs_nl, hMeq]
    show (match parseItems
        (('{' :: '\n' :: (entriesChars (p :: t) ++ ['\n', '}'])).length + 1) ('"' :: M) with
      | none => none
      | some (items, rest) =>
        if skipWs rest = [] then some (insertAllS [] items) else none) = some (p :: t)
    rw [hparse]
    show (if skipWs ([] : List Char) = [] then some (insertAllS [] (p :: t)) else none) =
      some (p :: t)
    rw [if_pos (show skipWs ([] : List Char) = [] from rfl), insertAllS_self (p :: t) h]

theorem claim_c8_witness :
    ((([("Sol", (30000142 : Int)), ("Jita \"å\"", -5), ("X\n\t", 0)]).map Prod.fst).Nodup) ∧
    loads (dumps [("Sol", (30000142 : Int)), ("Jita \"å\"", -5), ("X\n\t", 0)]) =
      some [("Sol", (30000142 : Int)), ("Jita \"å\"", -5), ("X\n\t", 0)] :=
  ⟨by decide, claim_c8 _ (by decide)⟩

end Scrape
